import Mathlib

/-!
Verification development for the `x32_osc_state` crate.

The Rust sources are shallowly embedded: byte buffers become `List Nat`
(each element one byte), machine integers become `Nat`/`Int` with explicit
wrap-around (`% 2^32`, `% 2^64`) where the Rust code can overflow, Rust
`String` values become their UTF-8 byte sequences (`List Nat`), fallible
operations return `Except`, and operations that can panic (out-of-bounds
slice or `Vec` indexing, arithmetic underflow feeding an index) return
`Option` with `none` marking the panic.

`f32`/`f64` payloads are carried as their big-endian bit patterns (`Nat`):
the OSC codec and the state machine only move these values, they never do
floating-point arithmetic on them, so the bit pattern is a faithful
representation (structure equality is bit equality).
-/

namespace OSC

/-- Bytes of an ASCII string literal (used only for ASCII constants, where
UTF-8 encoding is the identity on code points). -/
def strBytes (s : String) : List Nat := s.data.map Char.toNat

/-- Big-endian 4-byte encoding of the low 32 bits of a natural number
(`u32::to_be_bytes`). -/
def be4 (n : Nat) : List Nat :=
  [n / 2 ^ 24 % 256, n / 2 ^ 16 % 256, n / 2 ^ 8 % 256, n % 256]

/-- Big-endian 8-byte encoding of the low 64 bits (`u64::to_be_bytes`). -/
def be8 (n : Nat) : List Nat :=
  be4 (n / 2 ^ 32) ++ be4 n

/-- Big-endian read of the first four bytes (`u32::from_be_bytes`). -/
def beNat4 (l : List Nat) : Nat :=
  match l with
  | b0 :: b1 :: b2 :: b3 :: _ => b0 * 2 ^ 24 + b1 * 2 ^ 16 + b2 * 2 ^ 8 + b3
  | _ => 0

/-- Big-endian read of eight bytes (`u64::from_be_bytes`). -/
def beNat8 (l : List Nat) : Nat :=
  beNat4 l * 2 ^ 32 + beNat4 (l.drop 4)

/-- Little-endian read of four bytes (`f32::from_le_bytes` bit pattern). -/
def leNat4 (l : List Nat) : Nat :=
  match l with
  | b0 :: b1 :: b2 :: b3 :: _ => b3 * 2 ^ 24 + b2 * 2 ^ 16 + b1 * 2 ^ 8 + b0
  | _ => 0

/-- Two's-complement reinterpretation of an unsigned 32-bit value as `i32`. -/
def i32ofU32 (n : Nat) : Int :=
  if n < 2 ^ 31 then (n : Int) else (n : Int) - 2 ^ 32

/-- Two's-complement bit pattern of an `i32` value (`i32::to_be_bytes` feed). -/
def u32ofI32 (i : Int) : Nat := (i % 2 ^ 32).toNat

/-- Bit pattern of an `i64` value. -/
def u64ofI64 (i : Int) : Nat := (i % 2 ^ 64).toNat

/-- Two's-complement reinterpretation of an unsigned 64-bit value as `i64`. -/
def i64ofU64 (n : Nat) : Int :=
  if n < 2 ^ 63 then (n : Int) else (n : Int) - 2 ^ 64

/-- Rust `i32 as usize` (sign extension to 64 bits, reinterpreted unsigned). -/
def usizeOfI32 (i : Int) : Nat := (i % 2 ^ 64).toNat

/-- Truncating `i32 as i16` cast (keep the low 16 bits, reinterpret signed). -/
def i16ofI32 (i : Int) : Int :=
  let low := (i % 2 ^ 16).toNat
  if low < 2 ^ 15 then (low : Int) else (low : Int) - 2 ^ 16

-- MARK: error enums (src/src/enums/mod.rs and src/src/osc/mod.rs)

/-- Packet (buffer) errors, `enums::PacketError`. -/
inductive PacketError where
  | notFourByte
  | unterminatedString
  | underrun
  | invalidBuffer
  | invalidMessage
  | invalidTypesForMessage
  deriving DecidableEq

/-- OSC type conversion errors, `enums::OSCError`. -/
inductive OSCError where
  | convertFromString
  | addressContent
  | unknownType
  | invalidTypeFlag
  | invalidTypeConversion
  | invalidTimeUnderflow
  | invalidTimeOverflow
  deriving DecidableEq

/-- X32 state errors, `enums::X32Error`. -/
inductive X32Error where
  | invalidFader
  | unimplementedPacket
  | malformedPacket
  deriving DecidableEq

/-- Crate-wide error type, `enums::Error`. -/
inductive Error where
  | packet (e : PacketError)
  | osc (e : OSCError)
  | x32 (e : X32Error)
  deriving DecidableEq

/-- Buffer-level errors, `osc::BufferError`. -/
inductive BufferError where
  | notFourByte
  | unterminatedString
  | bufferUnderrun
  deriving DecidableEq

/-- Embedding of `osc::BufferError` into `enums::Error` used by the
`next_*` buffer methods (the test suite pins this mapping:
`NotFourByte`, `UnterminatedString`, `Underrun`). -/
def BufferError.toError : BufferError → Error
  | .notFourByte => .packet .notFourByte
  | .unterminatedString => .packet .unterminatedString
  | .bufferUnderrun => .packet .underrun

/-- Bundle tag constant `enums::BUNDLE_TAG`: the bytes of `#bundle` plus one
terminating zero byte. -/
def BUNDLE_TAG : List Nat := [0x23, 0x62, 0x75, 0x6e, 0x64, 0x6c, 0x65, 0x0]

-- MARK: Buffer primitives (src/src/osc/mod.rs, `impl Buffer`)

/-- Loop body of `Buffer::get_string`: consume 4-byte chunks until a chunk
ends with a zero byte; fewer than 4 bytes remaining is an unterminated
string. Returns the consumed bytes (padding included) and the rest. -/
def getStringChunks : List Nat → Except BufferError (List Nat × List Nat)
  | b0 :: b1 :: b2 :: b3 :: rest =>
    if b3 = 0 then .ok ([b0, b1, b2, b3], rest)
    else
      match getStringChunks rest with
      | .ok (s, r) => .ok (b0 :: b1 :: b2 :: b3 :: s, r)
      | .error e => .error e
  | _ => .error .unterminatedString

/-- Buffer method `get_string`: empty buffer is an underrun, misaligned
buffer is `NotFourByte`, otherwise read 4-byte chunks until a chunk ends in
a null byte. -/
def get_string (data : List Nat) : Except BufferError (List Nat × List Nat) :=
  if data.isEmpty then .error .bufferUnderrun
  else if data.length % 4 ≠ 0 then .error .notFourByte
  else getStringChunks data

/-- Buffer method `get_bytes`: length 0 trivially succeeds; otherwise the
empty check, then the alignment check (buffer and requested length), then
the underrun check. -/
def get_bytes (data : List Nat) (length : Nat) :
    Except BufferError (List Nat × List Nat) :=
  if length = 0 then .ok ([], data)
  else if data.isEmpty then .error .bufferUnderrun
  else if data.length % 4 ≠ 0 ∨ length % 4 ≠ 0 then .error .notFourByte
  else if data.length < length then .error .bufferUnderrun
  else .ok (data.take length, data.drop length)

/-- Buffer method `get_next_byte_block`: read a 4-byte big-endian `i32`
size, round it up to the next 4-byte boundary, and return size prefix plus
content plus padding. The `as usize` cast and the `usize` additions wrap
exactly as in release-mode Rust. -/
def get_next_byte_block (data : List Nat) :
    Except BufferError (List Nat × List Nat) :=
  if data.length < 4 then .error .bufferUnderrun
  else if data.length % 4 ≠ 0 then .error .notFourByte
  else
    let lenAct := usizeOfI32 (i32ofU32 (beNat4 data))
    let lenTot := if lenAct % 4 = 0 then lenAct
      else (lenAct + (4 - lenAct % 4)) % 2 ^ 64
    let chunkTot := (lenTot + 4) % 2 ^ 64
    if data.length < chunkTot then .error .bufferUnderrun
    else .ok (data.take chunkTot, data.drop chunkTot)

/-- Buffer method `get_next_block`: like `get_next_byte_block` but the
returned block excludes the 4-byte size prefix and the declared size is not
rounded up. The slice `data[4..chunk_tot]` panics when the wrapped
`chunk_tot` falls below 4, hence the `Option` layer (`none` = panic). -/
def get_next_block (data : List Nat) :
    Option (Except BufferError (List Nat × List Nat)) :=
  if data.length < 4 then some (.error .bufferUnderrun)
  else if data.length % 4 ≠ 0 then some (.error .notFourByte)
  else
    let chunkTot := (usizeOfI32 (i32ofU32 (beNat4 data)) + 4) % 2 ^ 64
    if data.length < chunkTot then some (.error .bufferUnderrun)
    else if chunkTot < 4 then none
    else some (.ok ((data.drop 4).take (chunkTot - 4), data.drop chunkTot))

/-- Modelled from the spec: `Buffer::next_string` is absent from the
provided sources (only callers and tests remain); per section 4.1 and the
`osc_buffer` tests it is `get_string` with the buffer error embedded into
the crate error type. -/
def next_string (data : List Nat) : Except Error (List Nat × List Nat) :=
  (get_string data).mapError BufferError.toError

/-- Modelled from the spec: `Buffer::next_bytes`, absent from the provided
sources; `get_bytes` with the embedded error type. -/
def next_bytes (data : List Nat) (length : Nat) :
    Except Error (List Nat × List Nat) :=
  (get_bytes data length).mapError BufferError.toError

/-- Modelled from the spec: `Buffer::next_block_with_size`, absent from the
provided sources; `get_next_byte_block` with the embedded error type. -/
def next_block_with_size (data : List Nat) :
    Except Error (List Nat × List Nat) :=
  (get_next_byte_block data).mapError BufferError.toError

/-- Modelled from the spec: `Buffer::next_block`, absent from the provided
sources; `get_next_block` with the embedded error type. -/
def next_block (data : List Nat) :
    Option (Except Error (List Nat × List Nat)) :=
  (get_next_block data).map (·.mapError BufferError.toError)

end OSC

namespace OSC

-- MARK: OSC types (src/src/osc/types.rs)

/-- OSC time tag, `osc::TimeTag` (`u32` seconds, `u32` fractional). -/
structure TimeTag where
  seconds : Nat
  fractional : Nat
  deriving DecidableEq

/-- OSC basic types, `osc::Type`. Rust `String` payloads are UTF-8 byte
lists; `i32`/`i64` are `Int`; `f32`/`f64` are big-endian bit patterns;
`char` is its Unicode scalar value; the type list is a `Vec<char>`. -/
inductive OType where
  | str (s : List Nat)
  | typeList (l : List Char)
  | integer (v : Int)
  | timeTag (t : TimeTag)
  | longInteger (v : Int)
  | float (bits : Nat)
  | double (bits : Nat)
  | boolean (b : Bool)
  | null
  | bang
  | color (r g b a : Nat)
  | char (c : Nat)
  | blob (v : List Nat)
  | unknown
  deriving DecidableEq

/-- Padding helper `padded_string_buffer`: append 1 to 4 zero bytes so the
total length is the next multiple of four. -/
def paddedBytes (v : List Nat) : List Nat :=
  v ++ List.replicate (4 - v.length % 4) 0

/-- Wire encoding of a type, Rust `impl Into<Vec<u8>> for Type`. The type
list is encoded through `format!` as the comma plus its characters; type
characters produced by the crate are ASCII, for which mapping each char to
its code point is exactly UTF-8. -/
def OType.toBytes : OType → List Nat
  | .integer v => be4 (u32ofI32 v)
  | .longInteger v => be8 (u64ofI64 v)
  | .float bits => be4 bits
  | .double bits => be8 bits
  | .color r g b a => [r, g, b, a]
  | .char c => be4 c
  | .str v => paddedBytes v
  | .timeTag t => be4 t.seconds ++ be4 t.fractional
  | .typeList l =>
    if l.isEmpty then [] else paddedBytes (0x2c :: l.map Char.toNat)
  | .blob v =>
    let buffer := be4 (v.length % 2 ^ 32) ++ v
    buffer ++ List.replicate ((4 - buffer.length % 4) % 4) 0
  | _ => []

/-- Type tag character, `Type::get_type_char`. -/
def OType.typeChar : OType → Except Error Char
  | .str _ => .ok 's'
  | .integer _ => .ok 'i'
  | .typeList _ => .ok ','
  | .timeTag _ => .ok 't'
  | .bang => .ok 'I'
  | .blob _ => .ok 'b'
  | .char _ => .ok 'c'
  | .color _ _ _ _ => .ok 'r'
  | .double _ => .ok 'd'
  | .float _ => .ok 'f'
  | .longInteger _ => .ok 'h'
  | .null => .ok 'N'
  | .boolean b => .ok (if b then 'T' else 'F')
  | .unknown => .error (.osc .unknownType)

/-- Continuation byte test for the UTF-8 validator. -/
def isCont (b : Nat) : Bool := 0x80 ≤ b && b ≤ 0xBF

/-- UTF-8 validity of a byte sequence, the check done by Rust
`std::str::from_utf8`. -/
def isUTF8 : List Nat → Bool
  | [] => true
  | b0 :: t0 =>
    if b0 ≤ 0x7F then isUTF8 t0
    else
      match t0 with
      | b1 :: t1 =>
        if 0xC2 ≤ b0 ∧ b0 ≤ 0xDF then isCont b1 && isUTF8 t1
        else
          match t1 with
          | b2 :: t2 =>
            if b0 = 0xE0 then
              (0xA0 ≤ b1 && b1 ≤ 0xBF) && isCont b2 && isUTF8 t2
            else if (0xE1 ≤ b0 ∧ b0 ≤ 0xEC) ∨ b0 = 0xEE ∨ b0 = 0xEF then
              isCont b1 && isCont b2 && isUTF8 t2
            else if b0 = 0xED then
              (0x80 ≤ b1 && b1 ≤ 0x9F) && isCont b2 && isUTF8 t2
            else
              match t2 with
              | b3 :: t3 =>
                if b0 = 0xF0 then
                  (0x90 ≤ b1 && b1 ≤ 0xBF) && isCont b2 && isCont b3 && isUTF8 t3
                else if 0xF1 ≤ b0 ∧ b0 ≤ 0xF3 then
                  isCont b1 && isCont b2 && isCont b3 && isUTF8 t3
                else if b0 = 0xF4 then
                  (0x80 ≤ b1 && b1 ≤ 0x8F) && isCont b2 && isCont b3 && isUTF8 t3
                else false
              | _ => false
          | _ => false
      | _ => false

/-- Removal of trailing null bytes, Rust `trim_end_matches(char::from(0))`. -/
def trimNulls (l : List Nat) : List Nat :=
  (l.reverse.dropWhile (· = 0)).reverse

/-- Decoding of a byte slice at a given type tag, Rust
`impl TryFrom<(&[u8], char)> for Type`, with the match arms in source
order. -/
def typeFromBytes (bytes : List Nat) (flag : Char) : Except Error OType :=
  if bytes.length % 4 ≠ 0 then .error (.packet .notFourByte)
  else if flag = 'T' ∧ bytes.length = 0 then .ok (.boolean true)
  else if flag = 'F' ∧ bytes.length = 0 then .ok (.boolean false)
  else if flag = 'N' ∧ bytes.length = 0 then .ok .null
  else if flag = 'I' ∧ bytes.length = 0 then .ok .bang
  else if flag = ',' ∧ bytes.length = 0 then .ok (.typeList [])
  else if flag = 'i' ∧ bytes.length = 4 then .ok (.integer (i32ofU32 (beNat4 bytes)))
  else if flag = 'f' ∧ bytes.length = 4 then .ok (.float (beNat4 bytes))
  else if flag = 'h' ∧ bytes.length = 8 then .ok (.longInteger (i64ofU64 (beNat8 bytes)))
  else if flag = 'd' ∧ bytes.length = 8 then .ok (.double (beNat8 bytes))
  else if flag = 't' ∧ bytes.length = 8 then
    .ok (.timeTag ⟨beNat4 bytes, beNat4 (bytes.drop 4)⟩)
  else if flag = 'c' ∧ bytes.length = 4 then
    let v := beNat4 bytes
    if v < 0xD800 ∨ (0xE000 ≤ v ∧ v < 0x110000) then .ok (.char v)
    else .error (.osc .convertFromString)
  else if flag = 'r' ∧ bytes.length = 4 then
    match bytes with
    | r :: g :: b :: a :: _ => .ok (.color r g b a)
    | _ => .error (.packet .underrun)
  else if (flag = 'i' ∨ flag = 'f' ∨ flag = 'h' ∨ flag = 'd' ∨ flag = 'c'
      ∨ flag = 'r' ∨ flag = 't') ∨ bytes.length = 0 then
    .error (.packet .underrun)
  else if flag = 's' then
    if isUTF8 bytes then .ok (.str (trimNulls bytes))
    else .error (.osc .convertFromString)
  else if flag = ',' then
    .ok (.typeList (((bytes.drop 1).filter (· ≠ 0)).map Char.ofNat))
  else if flag = 'b' then
    let realSize := usizeOfI32 (i32ofU32 (beNat4 bytes))
    let endIdx := (realSize + 4) % 2 ^ 64
    if bytes.length ≥ endIdx then .ok (.blob ((bytes.drop 4).take (endIdx - 4)))
    else .error (.packet .underrun)
  else .error (.osc .invalidTypeFlag)

/-- Modelled from the spec: `Type::try_from_buffer`, absent from the
provided sources (`Type::decode_buffer` in src has the same shape): feed a
buffer-read result into the byte decoder at the given tag. Our buffer reads
return the consumed bytes together with the remaining buffer, so this
variant threads the rest through. -/
def tryFromBufferPair (r : Except Error (List Nat × List Nat)) (flag : Char) :
    Except Error (OType × List Nat) :=
  match r with
  | .error e => .error e
  | .ok (bytes, rest) => (typeFromBytes bytes flag).map (fun t => (t, rest))

end OSC

namespace OSC

-- MARK: Message (src/src/osc/packet.rs)

/-- OSC single message, `osc::Message`. -/
structure Message where
  address : List Nat
  args : List OType
  force_empty_args : Bool
  deriving DecidableEq

/-- Validity check `Message::is_valid`: ASCII non-empty address and no
`Unknown`-typed argument. -/
def Message.is_valid (m : Message) : Bool :=
  (m.address.all (· < 128) && !m.address.isEmpty)
    && !(m.args.any (fun a => a matches .unknown))

/-- Type list of a message, `Message::type_list`: the type characters of
the arguments, dropping those without one. -/
def Message.typeListChars (m : Message) : List Char :=
  m.args.filterMap (fun a => a.typeChar.toOption)

/-- Message encoding, Rust `impl TryFrom<Message> for Buffer`. -/
def Message.encode (m : Message) : Except Error (List Nat) :=
  if !m.is_valid then .error (.packet .invalidMessage)
  else .ok
    (paddedBytes m.address
      ++ (if m.force_empty_args && m.args.isEmpty then [0x2c, 0, 0, 0]
          else (OType.typeList m.typeListChars).toBytes)
      ++ (m.args.map OType.toBytes).flatten)

/-- Per-tag argument read in message decode (the closure inside
`TryFrom<Buffer> for Message`), returning the argument and the remaining
buffer, or `none` when the read or the conversion fails. Any failed read
leaves the declared argument count unmatched, which the caller turns into
`InvalidTypesForMessage`. -/
def decodeArg (flag : Char) (data : List Nat) : Option (OType × List Nat) :=
  if flag = 'i' ∨ flag = 'f' ∨ flag = 'c' ∨ flag = 'r' then
    (tryFromBufferPair (next_bytes data 4) flag).toOption
  else if flag = 'h' ∨ flag = 'd' ∨ flag = 't' then
    (tryFromBufferPair (next_bytes data 8) flag).toOption
  else if flag = 'T' ∨ flag = 'F' then some (.boolean (flag = 'T'), data)
  else if flag = 'N' then some (.null, data)
  else if flag = 'I' then some (.bang, data)
  else if flag = 's' then (tryFromBufferPair (next_string data) flag).toOption
  else if flag = 'b' then
    (tryFromBufferPair (next_block_with_size data) flag).toOption
  else none

/-- Sequential argument decode over the declared type characters. The Rust
code `filter_map`s failures away and then compares the collected count to
the declared count; one failed read therefore always yields a count
mismatch, which this model reports as `none`. -/
def decodeArgs : List Char → List Nat → Option (List OType × List Nat)
  | [], data => some ([], data)
  | flag :: rest, data =>
    match decodeArg flag data with
    | none => none
    | some (t, data') =>
      match decodeArgs rest data' with
      | none => none
      | some (ts, data'') => some (t :: ts, data'')

/-- Message decoding, Rust `impl TryFrom<Buffer> for Message`. -/
def Message.decode (data : List Nat) : Except Error Message :=
  if data.length % 4 ≠ 0 then .error (.packet .notFourByte)
  else
    match tryFromBufferPair (next_string data) 's' with
    | .ok (.str address, rest) =>
      match tryFromBufferPair (next_string rest) ',' with
      | .ok (.typeList oscTypes, rest2) =>
        if oscTypes.isEmpty then
          .ok ⟨address, [], true⟩
        else
          match decodeArgs oscTypes rest2 with
          | some (args, _) => .ok ⟨address, args, false⟩
          | none => .error (.packet .invalidTypesForMessage)
      | _ => .ok ⟨address, [], false⟩
    | _ => .error (.packet .invalidMessage)

end OSC

namespace OSC

-- MARK: Bundle / Packet (src/src/osc/packet.rs)

/-- OSC packet, `osc::Packet`; a Rust `Bundle` value is the pair of a time
tag and its packet list, carried here by the `bundle` constructor. -/
inductive Packet where
  | message (m : Message)
  | bundle (time : TimeTag) (messages : List Packet)

mutual

/-- Item loop of `impl TryFrom<Bundle> for Buffer`: each packet is encoded
and emitted as a 4-byte big-endian length prefix (the `as i32` truncation
made explicit) followed by its bytes. -/
def bundleEncodeItems : List Packet → Except Error (List Nat)
  | [] => .ok []
  | p :: rest =>
    match packetEncode p with
    | .error e => .error e
    | .ok b =>
      match bundleEncodeItems rest with
      | .error e => .error e
      | .ok r => .ok (be4 (b.length % 2 ^ 32) ++ b ++ r)

/-- Packet encoding, `impl TryFrom<Packet> for Buffer` together with
`impl TryFrom<Bundle> for Buffer`. -/
def packetEncode : Packet → Except Error (List Nat)
  | .message m => m.encode
  | .bundle t msgs =>
    match bundleEncodeItems msgs with
    | .error e => .error e
    | .ok items => .ok (BUNDLE_TAG ++ be4 t.seconds ++ be4 t.fractional ++ items)

end

theorem mapError_ok {ε ε' α : Type} {x : Except ε α} {f : ε → ε'} {y : α} :
    x.mapError f = .ok y ↔ x = .ok y := by
  cases x <;> simp [Except.mapError]

theorem getStringChunks_append :
    ∀ l s r, getStringChunks l = .ok (s, r) → s ++ r = l ∧ s ≠ [] := by
  intro l
  induction l using getStringChunks.induct with
  | case1 b0 b1 b2 rest =>
    intro s r h
    simp only [getStringChunks, if_pos rfl] at h
    cases h
    simp
  | case2 b0 b1 b2 b3 rest hz s' r' heq ih =>
    intro s r h
    simp only [getStringChunks, if_neg hz, heq] at h
    cases h
    obtain ⟨ih1, _⟩ := ih s' r' heq
    simp [← ih1]
  | case3 b0 b1 b2 b3 rest hz e heq ih =>
    intro s r h
    simp only [getStringChunks, if_neg hz, heq] at h
    cases h
  | case4 t hne =>
    intro s r h
    rcases t with _ | ⟨a, _ | ⟨b, _ | ⟨c, _ | ⟨d, t⟩⟩⟩⟩
    · simp [getStringChunks] at h
    · simp [getStringChunks] at h
    · simp [getStringChunks] at h
    · simp [getStringChunks] at h
    · exact absurd rfl (hne a b c d t)

theorem get_string_append {data s r : List Nat}
    (h : get_string data = .ok (s, r)) : s ++ r = data ∧ s ≠ [] := by
  unfold get_string at h
  split at h
  · cases h
  · split at h
    · cases h
    · exact getStringChunks_append data s r h

theorem next_string_append {data s r : List Nat}
    (h : next_string data = .ok (s, r)) : s ++ r = data ∧ s ≠ [] :=
  get_string_append (mapError_ok.mp h)

theorem next_string_rest_le {data s r : List Nat}
    (h : next_string data = .ok (s, r)) : r.length ≤ data.length := by
  obtain ⟨h1, _⟩ := next_string_append h
  have := congrArg List.length h1
  simp at this
  omega

theorem get_bytes_rest_le {data r s : List Nat} {n : Nat}
    (h : get_bytes data n = .ok (s, r)) : r.length ≤ data.length := by
  unfold get_bytes at h
  split at h
  · cases h; exact le_refl _
  · split at h
    · cases h
    · split at h
      · cases h
      · split at h
        · cases h
        · cases h; simp

theorem next_bytes_rest_le {data s r : List Nat} {n : Nat}
    (h : next_bytes data n = .ok (s, r)) : r.length ≤ data.length :=
  get_bytes_rest_le (mapError_ok.mp h)

theorem get_next_block_lengths {data b r : List Nat}
    (h : get_next_block data = some (.ok (b, r))) :
    b.length < data.length ∧ r.length < data.length := by
  unfold get_next_block at h
  split at h
  · simp at h
  · split at h
    · simp at h
    · simp only [] at h
      split at h
      · simp at h
      · split at h
        · simp at h
        · simp only [Option.some.injEq, Except.ok.injEq, Prod.mk.injEq] at h
          obtain ⟨hb, hr⟩ := h
          subst hb hr
          simp
          omega

theorem next_block_ok {data b r : List Nat} :
    next_block data = some (.ok (b, r)) ↔
      get_next_block data = some (.ok (b, r)) := by
  unfold next_block
  cases hg : get_next_block data with
  | none => simp
  | some x => cases x <;> simp [Except.mapError]

theorem next_block_lengths {data b r : List Nat}
    (h : next_block data = some (.ok (b, r))) :
    b.length < data.length ∧ r.length < data.length :=
  get_next_block_lengths (next_block_ok.mp h)

end OSC

namespace OSC

mutual

/-- Item loop of `impl TryFrom<Buffer> for Bundle`: read length-prefixed
blocks until the buffer is exhausted; a failed block read or a block that
does not decode as a packet aborts with `InvalidBuffer`; `none` is a panic
escaping from `next_block`. -/
def bundleDecodeLoop (data : List Nat) : Option (Except Error (List Packet)) :=
  if data.isEmpty then some (.ok [])
  else
    match hnb : next_block data with
    | none => none
    | some (.error _) => some (.error (.packet .invalidBuffer))
    | some (.ok (block, rest)) =>
      match packetDecode block with
      | none => none
      | some (.error _) => some (.error (.packet .invalidBuffer))
      | some (.ok p) =>
        match bundleDecodeLoop rest with
        | none => none
        | some (.error e) => some (.error e)
        | some (.ok ps) => some (.ok (p :: ps))
termination_by (data.length, 0)
decreasing_by
  · exact Prod.Lex.left _ _ (next_block_lengths hnb).1
  · exact Prod.Lex.left _ _ (next_block_lengths hnb).2

/-- Bundle decoding, `impl TryFrom<Buffer> for Bundle`: alignment check,
exact bundle-tag string, 8-byte time tag (whose read errors propagate
as-is), then the item loop. -/
def bundleDecode (data : List Nat) :
    Option (Except Error (TimeTag × List Packet)) :=
  if data.length % 4 ≠ 0 then some (.error (.packet .notFourByte))
  else
    match hns : next_string data with
    | .ok (s, rest) =>
      if s = BUNDLE_TAG then
        match hnb : next_bytes rest 8 with
        | .ok (tb, rest2) =>
          (bundleDecodeLoop rest2).map
            (·.map (fun ps => (⟨beNat4 tb, beNat4 (tb.drop 4)⟩, ps)))
        | .error e => some (.error e)
      else some (.error (.packet .invalidBuffer))
    | .error _ => some (.error (.packet .invalidBuffer))
termination_by (data.length, 1)
decreasing_by
  · have h1 := next_string_rest_le hns
    have h2 := next_bytes_rest_le hnb
    rcases Nat.lt_or_ge rest2.length data.length with hlt | hge
    · exact Prod.Lex.left _ _ hlt
    · have hEq : rest2.length = data.length := le_antisymm (le_trans h2 h1) hge
      rw [hEq]
      exact Prod.Lex.right _ (by omega)

/-- Packet decoding, `impl TryFrom<Buffer> for Packet`: alignment check,
then dispatch on the bundle-tag prefix. -/
def packetDecode (data : List Nat) : Option (Except Error Packet) :=
  if data.length % 4 ≠ 0 then some (.error (.packet .notFourByte))
  else if BUNDLE_TAG.isPrefixOf data then
    (bundleDecode data).map (·.map (fun tp => .bundle tp.1 tp.2))
  else some ((Message.decode data).map .message)
termination_by (data.length, 2)
decreasing_by
  · exact Prod.Lex.right _ (by omega)

end

end OSC

namespace X32

open OSC

-- MARK: string and number helpers shared by the console layer

/-- Digit-list accumulator for Rust integer parsing. -/
def digitsAcc : List Nat → Nat → Option Nat
  | [], acc => some acc
  | c :: r, acc =>
    if 48 ≤ c ∧ c ≤ 57 then digitsAcc r (acc * 10 + (c - 48)) else none

/-- Rust `str::parse::<usize>`: an optional leading plus sign, then at
least one ASCII digit; a minus sign, any other character, the empty string
or a value beyond `usize::MAX` fail. -/
def parseUsize (l : List Nat) : Option Nat :=
  let l' := match l with | 43 :: r => r | _ => l
  if l'.isEmpty then none
  else
    match digitsAcc l' 0 with
    | none => none
    | some v => if v < 2 ^ 64 then some v else none

/-- Rust `str::parse::<i32>`: optional sign, at least one digit, `i32`
range check. -/
def parseI32 (l : List Nat) : Option Int :=
  let (neg, l') : Bool × List Nat :=
    match l with
    | 43 :: r => (false, r)
    | 45 :: r => (true, r)
    | _ => (false, l)
  if l'.isEmpty then none
  else
    match digitsAcc l' 0 with
    | none => none
    | some v =>
      if neg then (if v ≤ 2 ^ 31 then some (-(v : Int)) else none)
      else (if v < 2 ^ 31 then some (v : Int) else none)

/-- Decimal ASCII digits of a natural number (Rust `format!` of an
unsigned integer). -/
def natBytes (n : Nat) : List Nat := (Nat.toDigits 10 n).map Char.toNat

/-- Zero-padded two-digit formatting, Rust `format!` with a `:02` width. -/
def pad2 (n : Nat) : List Nat :=
  let d := natBytes n
  if d.length < 2 then 48 :: d else d

-- MARK: console value enums (src/src/enums/mod.rs)

/-- Show control mode, `enums::ShowMode`. -/
inductive ShowMode where
  | cues
  | scenes
  | snippets
  deriving DecidableEq

/-- Conversion `ShowMode::from_int`: 1 is scenes, 2 is snippets, anything
else is cues. -/
def ShowMode.from_int (v : Int) : ShowMode :=
  if v = 1 then .scenes else if v = 2 then .snippets else .cues

/-- Conversion `ShowMode::from_const`. -/
def ShowMode.from_const (v : List Nat) : ShowMode :=
  if v = strBytes "SCENES" then .scenes
  else if v = strBytes "SNIPPETS" then .snippets
  else .cues

/-- Fader color, `enums::FaderColor`. -/
inductive FaderColor where
  | off | red | green | yellow | blue | magenta | cyan | white
  | redInverted | greenInverted | yellowInverted | blueInverted
  | magentaInverted | cyanInverted | whiteInverted
  deriving DecidableEq

/-- Color from integer, `FaderColor::parse_int` (8 and any unlisted value
fall back to `Off`). -/
def FaderColor.parse_int (v : Int) : FaderColor :=
  if v = 1 then .red else if v = 2 then .green else if v = 3 then .yellow
  else if v = 4 then .blue else if v = 5 then .magenta
  else if v = 6 then .cyan else if v = 7 then .white
  else if v = 9 then .redInverted else if v = 10 then .greenInverted
  else if v = 11 then .yellowInverted else if v = 12 then .blueInverted
  else if v = 13 then .magentaInverted else if v = 14 then .cyanInverted
  else if v = 15 then .whiteInverted else .off

/-- Color from the console's string constant, `FaderColor::parse_str`;
unrecognised tokens fall back to `White`. -/
def FaderColor.parse_str (v : List Nat) : FaderColor :=
  if v = strBytes "OFF" ∨ v = strBytes "OFFi" then .off
  else if v = strBytes "RD" then .red
  else if v = strBytes "GN" then .green
  else if v = strBytes "YE" then .yellow
  else if v = strBytes "BL" then .blue
  else if v = strBytes "MG" then .magenta
  else if v = strBytes "CY" then .cyan
  else if v = strBytes "RDi" then .redInverted
  else if v = strBytes "GNi" then .greenInverted
  else if v = strBytes "YEi" then .yellowInverted
  else if v = strBytes "BLi" then .blueInverted
  else if v = strBytes "MGi" then .magentaInverted
  else if v = strBytes "CYi" then .cyanInverted
  else if v = strBytes "WHi" then .whiteInverted
  else .white

/-- Fader addressing, `enums::FaderIndex` (1-based position). -/
inductive FaderIndex where
  | aux (v : Nat)
  | matrix (v : Nat)
  | main (v : Nat)
  | channel (v : Nat)
  | dca (v : Nat)
  | bus (v : Nat)
  | unknown
  deriving DecidableEq

/-- Position accessor `FaderIndex::get_index` (0 for `Unknown`). -/
def FaderIndex.get_index : FaderIndex → Nat
  | .aux v | .matrix v | .bus v | .main v | .channel v | .dca v => v
  | .unknown => 0

/-- Default label `FaderIndex::default_label`. -/
def FaderIndex.default_label : FaderIndex → List Nat
  | .aux v => strBytes "Aux" ++ pad2 v
  | .matrix v => strBytes "Mtx" ++ pad2 v
  | .main v => if v = 2 then strBytes "M/C" else strBytes "Main"
  | .channel v => strBytes "Ch" ++ pad2 v
  | .dca v => strBytes "DCA" ++ natBytes v
  | .bus v => strBytes "MixBus" ++ pad2 v
  | .unknown => []

/-- Console address `FaderIndex::get_x32_address`. -/
def FaderIndex.get_x32_address : FaderIndex → List Nat
  | .unknown => []
  | .aux v => strBytes "auxin/" ++ pad2 v
  | .matrix v => strBytes "mtx/" ++ pad2 v
  | .main v => if v = 2 then strBytes "main/m" else strBytes "main/st"
  | .channel v => strBytes "ch/" ++ pad2 v
  | .dca v => strBytes "dca/" ++ natBytes v
  | .bus v => strBytes "bus/" ++ pad2 v

/-- Parse input for fader resolution, `enums::FaderIndexParse` (bank name
together with an integer or string 1-based position). -/
inductive FaderIndexParse where
  | int (s : List Nat) (d : Int)
  | str (s : List Nat) (d : List Nat)

/-- Resolution of bank name plus position,
`impl TryFrom<FaderIndexParse> for FaderIndex`. The `main` bank with a
string position maps `m` to 2 and anything else to 1; other banks parse
the position as `usize`. A zero position, an unknown bank, or a position
above the bank capacity is the invalid-fader error. -/
def FaderIndexParse.resolve (value : FaderIndexParse) : Except Error FaderIndex :=
  let index : Option Nat :=
    match value with
    | .int _ d => if d < 0 then none else some d.toNat
    | .str s d =>
      if s = strBytes "main" then some (if d = strBytes "m" then 2 else 1)
      else parseUsize d
  match index with
  | none => .error (.x32 .invalidFader)
  | some index =>
    let s := match value with | .int s _ => s | .str s _ => s
    if index = 0 then .error (.x32 .invalidFader)
    else if s = strBytes "mtx" ∧ index ≤ 6 then .ok (.matrix index)
    else if s = strBytes "auxin" ∧ index ≤ 8 then .ok (.aux index)
    else if s = strBytes "dca" ∧ index ≤ 8 then .ok (.dca index)
    else if s = strBytes "main" ∧ index ≤ 2 then .ok (.main index)
    else if s = strBytes "ch" ∧ index ≤ 32 then .ok (.channel index)
    else if s = strBytes "bus" ∧ index ≤ 16 then .ok (.bus index)
    else .error (.x32 .invalidFader)

-- MARK: fader level values

/-- Value carried in a fader's `level : f32` slot. The crate only ever
stores levels (it never computes with them inside the code under
verification), so the embedding keeps them symbolic: `bits` is an exact
f32 bit pattern (an OSC float argument, or the literal `0_f32` written by
reset and construction), and `fromNodeToken` marks the f32 produced by
`Fader::level_from_string` from a node-message token, whose floating-point
value the claims settled here never inspect. -/
inductive LevelVal where
  | bits (n : Nat)
  | fromNodeToken (s : List Nat)
  deriving DecidableEq

/-- Symbolic image of `Fader::level_from_string` (see `LevelVal`). -/
def level_from_string (s : List Nat) : LevelVal := .fromNodeToken s

/-- Mute parsing helper `Fader::is_on_from_string`. -/
def is_on_from_string (v : List Nat) : Bool := v = strBytes "ON"

end X32

namespace X32

open OSC

-- MARK: Fader and FaderBank (src/src/enums/mod.rs)

/-- Tracked fader, `enums::Fader`. -/
structure Fader where
  source : FaderIndex
  label : List Nat
  level : LevelVal
  is_on : Bool
  color : FaderColor
  deriving DecidableEq

/-- Constructor `Fader::new`: empty label, level `0_f32`, off, default
(white) color. -/
def Fader.new (source : FaderIndex) : Fader :=
  ⟨source, [], .bits 0, false, .white⟩

/-- Partial fader update record, `x32::updates::FaderUpdate`. -/
structure FaderUpdate where
  source : FaderIndex
  label : Option (List Nat)
  level : Option LevelVal
  is_on : Option Bool
  color : Option FaderColor
  deriving DecidableEq

/-- Default `FaderUpdate`: unknown source, every field absent. -/
def FaderUpdate.default : FaderUpdate := ⟨.unknown, none, none, none, none⟩

/-- Merge of a partial update into a fader, `Fader::update`: each of the
four optional fields overwrites its slot only when present. -/
def Fader.update (f : Fader) (u : FaderUpdate) : Fader :=
  { f with
    level := u.level.getD f.level
    is_on := u.is_on.getD f.is_on
    label := u.label.getD f.label
    color := u.color.getD f.color }

/-- Fader banks, `enums::FaderBank`. The Rust fixed-size arrays are lists
whose lengths are fixed by construction (2, 6, 8, 8, 16, 32). -/
structure FaderBank where
  main : List Fader
  matrix : List Fader
  aux : List Fader
  dca : List Fader
  bus : List Fader
  channel : List Fader
  deriving DecidableEq

/-- Constructor `FaderBank::new` (1-based source positions). -/
def FaderBank.new : FaderBank where
  main := (List.range 2).map (fun i => Fader.new (.main (i + 1)))
  matrix := (List.range 6).map (fun i => Fader.new (.matrix (i + 1)))
  aux := (List.range 8).map (fun i => Fader.new (.aux (i + 1)))
  dca := (List.range 8).map (fun i => Fader.new (.dca (i + 1)))
  bus := (List.range 16).map (fun i => Fader.new (.bus (i + 1)))
  channel := (List.range 32).map (fun i => Fader.new (.channel (i + 1)))

/-- Zero-based slot index computed by `FaderBank::get_mut`:
`get_index() - 1` on `usize`, which wraps for index 0 (release-profile
semantics; the wrapped value then fails every bounds check). -/
def FaderIndex.slot (f : FaderIndex) : Nat :=
  (f.get_index + (2 ^ 64 - 1)) % 2 ^ 64

/-- In-place update of one list slot; an out-of-range index (from
`slice::get_mut` returning `None`) leaves the list unchanged and reports
no fader. -/
def updateList (l : List Fader) (i : Nat) (u : FaderUpdate) :
    List Fader × Option Fader :=
  match l.get? i with
  | some f => (l.set i (f.update u), some (f.update u))
  | none => (l, none)

/-- Bank update, `FaderBank::update` plus `FaderBank::get_mut`: pick the
category list by the source's variant, then update at the zero-based slot.
The `Option Fader` reports the written fader. (The provided source of
`FaderBank::update` returns unit, but `X32Console::update` uses its result
as an `X32ProcessResult`; per the `X32ProcessResult::Fader` documentation
the missing return value is the changed fader, `NoOperation` when the
lookup fails.) -/
def FaderBank.update (b : FaderBank) (u : FaderUpdate) :
    FaderBank × Option Fader :=
  match u.source with
  | .aux _ =>
    let r := updateList b.aux u.source.slot u; ({ b with aux := r.1 }, r.2)
  | .matrix _ =>
    let r := updateList b.matrix u.source.slot u; ({ b with matrix := r.1 }, r.2)
  | .main _ =>
    let r := updateList b.main u.source.slot u; ({ b with main := r.1 }, r.2)
  | .channel _ =>
    let r := updateList b.channel u.source.slot u; ({ b with channel := r.1 }, r.2)
  | .dca _ =>
    let r := updateList b.dca u.source.slot u; ({ b with dca := r.1 }, r.2)
  | .bus _ =>
    let r := updateList b.bus u.source.slot u; ({ b with bus := r.1 }, r.2)
  | .unknown => (b, none)

/-- Update record written to every fader by `FaderBank::reset`. -/
def resetUpdate : FaderUpdate :=
  { FaderUpdate.default with
    label := some []
    level := some (.bits 0)
    is_on := some false
    color := some .white }

/-- Reset of all banks, `FaderBank::reset`. -/
def FaderBank.reset (b : FaderBank) : FaderBank where
  main := b.main.map (·.update resetUpdate)
  matrix := b.matrix.map (·.update resetUpdate)
  aux := b.aux.map (·.update resetUpdate)
  dca := b.dca.map (·.update resetUpdate)
  bus := b.bus.map (·.update resetUpdate)
  channel := b.channel.map (·.update resetUpdate)

-- MARK: interpreter output records (src/src/x32/updates.rs, from_console.rs)

/-- Cue record, `x32::updates::CueUpdate`. -/
structure CueUpdate where
  index : Nat
  cue_number : List Nat
  name : List Nat
  snippet : Option Nat
  scene : Option Nat
  deriving DecidableEq

/-- Snippet record, `x32::updates::SnippetUpdate`. -/
structure SnippetUpdate where
  index : Nat
  name : List Nat
  deriving DecidableEq

/-- Scene record, `x32::updates::SceneUpdate`. -/
structure SceneUpdate where
  index : Nat
  name : List Nat
  deriving DecidableEq

/-- Interpreter output, `x32::ConsoleMessage`. The current-cue payload is
the Rust `i16`; meter samples are little-endian f32 bit patterns. -/
inductive ConsoleMessage where
  | fader (u : FaderUpdate)
  | cue (u : CueUpdate)
  | snippet (u : SnippetUpdate)
  | scene (u : SceneUpdate)
  | currentCue (v : Int)
  | showMode (m : ShowMode)
  | meters (index : Nat) (samples : List Nat)
  deriving DecidableEq

-- MARK: console state (src/src/lib.rs, `ShowCue` from enums)

/-- Stored cue, `enums::ShowCue`. -/
structure ShowCue where
  cue_number : List Nat
  name : List Nat
  snippet : Option Nat
  scene : Option Nat
  deriving DecidableEq

/-- Process result, `X32ProcessResult`. -/
inductive X32ProcessResult where
  | noOperation
  | fader (f : Fader)
  | currentCue (s : List Nat)
  | meters (index : Nat) (samples : List Nat)
  deriving DecidableEq

/-- Top-level mirrored state, `X32Console`. The Rust fixed arrays
(500/100/100 slots) are lists of that length by construction. -/
structure X32Console where
  faders : FaderBank
  cues : List (Option ShowCue)
  snippets : List (Option (List Nat))
  scenes : List (Option (List Nat))
  show_mode : ShowMode
  current_cue : Option Nat
  deriving DecidableEq

/-- Constructor `X32Console::new`. -/
def X32Console.new : X32Console where
  faders := FaderBank.new
  cues := List.replicate 500 none
  snippets := List.replicate 100 none
  scenes := List.replicate 100 none
  show_mode := .cues
  current_cue := none

/-- Scene display name, `X32Console::scene_name`; `none` is the panic of
`self.scenes[d]` on a state whose list is shorter than the checked bound. -/
def X32Console.scene_name (c : X32Console) (index : Option Nat) :
    Option (List Nat) :=
  match index with
  | some d =>
    if d < 100 then
      match c.scenes.get? d with
      | none => none
      | some none => some (strBytes "--")
      | some (some t) => some (pad2 d ++ strBytes ":" ++ t)
    else some (strBytes "--")
  | none => some (strBytes "--")

/-- Snippet display name, `X32Console::snip_name`. -/
def X32Console.snip_name (c : X32Console) (index : Option Nat) :
    Option (List Nat) :=
  match index with
  | some d =>
    if d < 100 then
      match c.snippets.get? d with
      | none => none
      | some none => some (strBytes "--")
      | some (some t) => some (pad2 d ++ strBytes ":" ++ t)
    else some (strBytes "--")
  | none => some (strBytes "--")

/-- Cue display name, `X32Console::cue_name`. -/
def X32Console.cue_name (c : X32Console) (index : Option Nat) :
    Option (List Nat) :=
  let dflt := strBytes "0.0.0 :: -- [--] [--]"
  match index with
  | some d =>
    if d < 500 then
      match c.cues.get? d with
      | none => none
      | some none => some dflt
      | some (some t) =>
        match c.scene_name t.scene, c.snip_name t.snippet with
        | some sc, some sn =>
          some (t.cue_number ++ strBytes " :: " ++ t.name
            ++ strBytes " [" ++ sc ++ strBytes "] [" ++ sn ++ strBytes "]")
        | _, _ => none
    else some dflt
  | none => some dflt

/-- Active selection display, `X32Console::active_cue`. -/
def X32Console.active_cue (c : X32Console) : Option (List Nat) :=
  match c.show_mode with
  | .cues => (c.cue_name c.current_cue).map (strBytes "Cue: " ++ ·)
  | .scenes => (c.scene_name c.current_cue).map (strBytes "Scene: " ++ ·)
  | .snippets => (c.snip_name c.current_cue).map (strBytes "Snippet: " ++ ·)

/-- List clearing, `X32Console::clear_cues`. -/
def X32Console.clear_cues (c : X32Console) : X32Console :=
  { c with
    cues := List.replicate 500 none
    snippets := List.replicate 100 none
    scenes := List.replicate 100 none }

/-- State machine reset, `X32Console::reset`: clear the three lists and
reset every fader; show mode and current cue are not touched. -/
def X32Console.reset (c : X32Console) : X32Console :=
  { c.clear_cues with faders := c.faders.reset }

/-- State transition, `X32Console::update`. `none` is a panic: the cue,
snippet and scene arms guard their array write with `index <= 500`
although the arrays have 500, 100 and 100 slots, so an index equal to 500
(cues) or between 100 and 500 (snippets, scenes) reaches `self.xs[i]` out
of bounds. -/
def X32Console.update (c : X32Console) (u : ConsoleMessage) :
    Option (X32Console × X32ProcessResult) :=
  match u with
  | .meters i v => some (c, .meters i v)
  | .fader u =>
    let r := c.faders.update u
    some ({ c with faders := r.1 },
      match r.2 with | some f => .fader f | none => .noOperation)
  | .currentCue v =>
    let c' := { c with current_cue := if v < 0 then none else some v.toNat }
    (c'.active_cue).map (fun s => (c', .currentCue s))
  | .showMode v =>
    let c' := { c with show_mode := v }
    (c'.active_cue).map (fun s => (c', .currentCue s))
  | .cue v =>
    if v.index ≤ 500 then
      if v.index < c.cues.length then
        some ({ c with
          cues := c.cues.set v.index (some ⟨v.cue_number, v.name, v.snippet, v.scene⟩) },
          .noOperation)
      else none
    else some (c, .noOperation)
  | .snippet v =>
    if v.index ≤ 500 then
      if v.index < c.snippets.length then
        some ({ c with snippets := c.snippets.set v.index (some v.name) },
          .noOperation)
      else none
    else some (c, .noOperation)
  | .scene v =>
    if v.index ≤ 500 then
      if v.index < c.scenes.length then
        some ({ c with scenes := c.scenes.set v.index (some v.name) },
          .noOperation)
      else none
    else some (c, .noOperation)

end X32

namespace X32

open OSC

-- MARK: console protocol interpreter (src/src/x32/from_console.rs)

/-- Address splitter `ConsoleMessage::split_address`: strip one leading
slash, split on slashes, return the first four segments (missing segments
are empty). -/
def split_address (s : List Nat) :
    List Nat × List Nat × List Nat × List Nat :=
  let s' := match s with | 47 :: r => r | _ => s
  let sp := s'.splitOn 47
  (sp.getD 0 [], sp.getD 1 [], sp.getD 2 [], sp.getD 3 [])

/-- Whitespace class of the tokenizer regex (ASCII part of `\s`). -/
def isWS (c : Nat) : Bool :=
  c = 32 ∨ c = 9 ∨ c = 10 ∨ c = 11 ∨ c = 12 ∨ c = 13

/-- Scan for a closing double quote: content before it and the remainder
after it, or `none` when the quote is unmatched. -/
def splitAtQuote : List Nat → Option (List Nat × List Nat)
  | [] => none
  | c :: r =>
    if c = 34 then some ([], r)
    else (splitAtQuote r).map (fun p => (c :: p.1, p.2))

theorem splitAtQuote_rest_lt :
    ∀ l a b, splitAtQuote l = some (a, b) → b.length < l.length := by
  intro l
  induction l with
  | nil => intro a b h; cases h
  | cons c r ih =>
    intro a b h
    by_cases hc : c = 34
    · simp [splitAtQuote, hc] at h
      obtain ⟨_, h2⟩ := h
      subst h2
      simp
    · simp only [splitAtQuote, if_neg hc] at h
      cases hq : splitAtQuote r with
      | none => rw [hq] at h; cases h
      | some p =>
        rw [hq] at h
        obtain ⟨a', b'⟩ := p
        simp at h
        obtain ⟨_, h2⟩ := h
        subst h2
        have := ih a' b' hq
        simp
        omega

/-- Token scan of the node-message tokenizer regex, fuelled so that the
recursion is structural (every step consumes at least one byte, and
`splitAtQuote` only shortens its input, so fuel equal to the input length
never runs out): a maximal run of non-whitespace non-quote bytes, or a
double-quoted span (flagged `true`); an unmatched opening quote is
skipped, exactly as the regex engine advances past a position where
neither alternative matches. -/
def tokenizeF : Nat → List Nat → List (Bool × List Nat)
  | 0, _ => []
  | _, [] => []
  | fuel + 1, c :: rest =>
    if isWS c then tokenizeF fuel rest
    else if c = 34 then
      match splitAtQuote rest with
      | some (content, after) => (true, content) :: tokenizeF fuel after
      | none => tokenizeF fuel rest
    else
      (false, c :: rest.takeWhile (fun x => !isWS x && !(x = 34)))
        :: tokenizeF fuel (rest.drop (rest.takeWhile (fun x => !isWS x && !(x = 34))).length)

/-- Tokenizer entry point (fuel is the input length, which the scan never
exhausts early). -/
def tokenize (s : List Nat) : List (Bool × List Nat) := tokenizeF s.length s

/-- Node payload splitter `ConsoleMessage::split_node_msg`: the first
token becomes the address when it is unquoted (a quoted first token joins
the arguments and the address stays empty); every later token is an
argument. -/
def split_node_msg (s : List Nat) : List Nat × List (List Nat) :=
  match tokenize s with
  | [] => ([], [])
  | (true, t) :: rest => ([], t :: rest.map Prod.snd)
  | (false, t) :: rest => (t, rest.map Prod.snd)

/-- Modelled from the spec: `Type::default_value` is absent from the
provided sources (only its caller `Message::first_default` remains). Per
the design notes it returns the enclosed primitive when the variant
matches the requested type and the supplied default otherwise. Float
instance (`f32` bit-pattern representation). -/
def first_default_float (m : Message) (d : Nat) : Nat :=
  match m.args.head? with
  | some (.float v) => v
  | _ => d

/-- Modelled from the spec: `Message::first_default` at type `i32` (see
`first_default_float`). -/
def first_default_int (m : Message) (d : Int) : Int :=
  match m.args.head? with
  | some (.integer v) => v
  | _ => d

/-- Modelled from the spec: `Message::first_default` at type `String` (see
`first_default_float`). -/
def first_default_str (m : Message) (d : List Nat) : List Nat :=
  match m.args.head? with
  | some (.str v) => v
  | _ => d

/-- Meter blob decoding: `chunks_exact(4)` over the blob, each chunk read
as a little-endian f32 (bit pattern); a trailing partial chunk is
dropped. -/
def chunks4le : List Nat → List Nat
  | b0 :: b1 :: b2 :: b3 :: r => leNat4 [b0, b1, b2, b3] :: chunks4le r
  | _ => []

/-- Standard-OSC interpretation, `ConsoleMessage::try_from_standard_osc`,
with the match arms in source order. -/
def try_from_standard_osc (m : Message) : Except Error ConsoleMessage :=
  let parts := split_address m.address
  let p0 := parts.1
  let p1 := parts.2.1
  let p2 := parts.2.2.1
  let p3 := parts.2.2.2
  if (p2 = strBytes "mix" ∧ p3 = strBytes "fader")
      ∨ (p0 = strBytes "dca" ∧ p2 = strBytes "fader" ∧ p3 = []) then
    (FaderIndexParse.resolve (.str p0 p1)).map (fun fi =>
      .fader { FaderUpdate.default with
        source := fi, level := some (.bits (first_default_float m 0)) })
  else if (p2 = strBytes "mix" ∧ p3 = strBytes "on")
      ∨ (p0 = strBytes "dca" ∧ p2 = strBytes "on" ∧ p3 = []) then
    (FaderIndexParse.resolve (.str p0 p1)).map (fun fi =>
      .fader { FaderUpdate.default with
        source := fi, is_on := some (first_default_int m 0 = 1) })
  else if p2 = strBytes "config" ∧ p3 = strBytes "name" then
    (FaderIndexParse.resolve (.str p0 p1)).map (fun fi =>
      .fader { FaderUpdate.default with
        source := fi, label := some (first_default_str m []) })
  else if p2 = strBytes "config" ∧ p3 = strBytes "color" then
    (FaderIndexParse.resolve (.str p0 p1)).map (fun fi =>
      .fader { FaderUpdate.default with
        source := fi, color := some (FaderColor.parse_int (first_default_int m 1)) })
  else if p0 = strBytes "-show" ∧ p1 = strBytes "prepos"
      ∧ p2 = strBytes "current" ∧ p3 = [] then
    .ok (.currentCue (i16ofI32 (first_default_int m (-1))))
  else if p0 = strBytes "-prefs" ∧ p1 = strBytes "show_control"
      ∧ p2 = [] ∧ p3 = [] then
    .ok (.showMode (ShowMode.from_int (first_default_int m (-1))))
  else if p0 = strBytes "meters" ∧ p2 = [] ∧ p3 = [] then
    match parseUsize p1 with
    | none => .error (.x32 .unimplementedPacket)
    | some t =>
      match m.args.head? with
      | some (.blob v) => .ok (.meters t (chunks4le v))
      | _ => .error (.x32 .unimplementedPacket)
  else .error (.x32 .unimplementedPacket)

/-- Byte-list insertion at an in-range position (Rust `String::insert` on
the byte index; callers guard the range, out-of-range is a panic handled
by the caller). -/
def insertAt (l : List Nat) (i : Nat) (a : Nat) : List Nat :=
  l.take i ++ a :: l.drop i

/-- Dotted cue number: two dots inserted at the fixed offsets
`len - 2` and then `len - 1` of the growing string. -/
def insertDots (s : List Nat) : List Nat :=
  let l1 := insertAt s (s.length - 2) 46
  insertAt l1 (l1.length - 1) 46

/-- Node-form interpretation, `ConsoleMessage::try_from_node`, match arms
in source order. `none` is a panic: the config arm reads `args[2]` under
an `arg_len >= 1` guard only, the current/show-control/scene/snippet arms
read `args[0]` unguarded, and the cue arm reads `args[0]`, `args[1]`,
`args[3]`, `args[4]` unguarded and underflows `cue_number.len() - 2` when
the cue-number token is shorter than two bytes. -/
def try_from_node (arg : List Nat) : Option (Except Error ConsoleMessage) :=
  let an := split_node_msg arg
  let address := an.1
  let args := an.2
  let argLen := args.length
  let parts := split_address address
  let p0 := parts.1
  let p1 := parts.2.1
  let p2 := parts.2.2.1
  let p3 := parts.2.2.2
  if ((p2 = strBytes "mix" ∧ p3 = []) ∨ (p0 = strBytes "dca" ∧ p2 = [] ∧ p3 = []))
      ∧ 2 ≤ argLen then
    some ((FaderIndexParse.resolve (.str p0 p1)).map (fun fi =>
      .fader { FaderUpdate.default with
        source := fi
        level := some (level_from_string (args.getD 1 []))
        is_on := some (is_on_from_string (args.getD 0 [])) }))
  else if p2 = strBytes "config" ∧ p3 = [] ∧ 1 ≤ argLen then
    if argLen ≤ 2 then none
    else
      some ((FaderIndexParse.resolve (.str p0 p1)).map (fun fi =>
        .fader { FaderUpdate.default with
          source := fi
          label := some (args.getD 0 [])
          color := some (FaderColor.parse_str (args.getD 2 [])) }))
  else if p0 = strBytes "-show" ∧ p1 = strBytes "prepos"
      ∧ p2 = strBytes "current" ∧ p3 = [] then
    if argLen = 0 then none
    else some (.ok (.currentCue (i16ofI32 ((parseI32 (args.getD 0 [])).getD (-1)))))
  else if p0 = strBytes "-prefs" ∧ p1 = strBytes "show_control"
      ∧ p2 = [] ∧ p3 = [] then
    if argLen = 0 then none
    else some (.ok (.showMode (ShowMode.from_const (args.getD 0 []))))
  else if p0 = strBytes "-show" ∧ p1 = strBytes "showfile" ∧ p2 = strBytes "cue" then
    if argLen < 5 ∨ (args.getD 0 []).length < 2 then none
    else
      some (.ok (.cue {
        index := (parseUsize p3).getD 0
        cue_number := insertDots (args.getD 0 [])
        name := args.getD 1 []
        scene := match parseI32 (args.getD 3 []) with
          | some d => if 0 ≤ d then some d.toNat else none
          | none => none
        snippet := match parseI32 (args.getD 4 []) with
          | some d => if 0 ≤ d then some d.toNat else none
          | none => none }))
  else if p0 = strBytes "-show" ∧ p1 = strBytes "showfile" ∧ p2 = strBytes "scene" then
    if argLen = 0 then none
    else some (.ok (.scene ⟨(parseUsize p3).getD 0, args.getD 0 []⟩))
  else if p0 = strBytes "-show" ∧ p1 = strBytes "showfile" ∧ p2 = strBytes "snippet" then
    if argLen = 0 then none
    else some (.ok (.snippet ⟨(parseUsize p3).getD 0, args.getD 0 []⟩))
  else some (.error (.x32 .unimplementedPacket))

/-- Message interpretation, `impl TryFrom<Message> for ConsoleMessage`: an
address equal to `node` dispatches the first argument (converted to a
string, conversion failure propagating) to the node interpreter, anything
else to the standard interpreter. -/
def ConsoleMessage.try_from (m : Message) : Option (Except Error ConsoleMessage) :=
  if m.address = strBytes "node" then
    match m.args.head?.getD .unknown with
    | .str s => try_from_node s
    | _ => some (.error (.osc .invalidTypeConversion))
  else some (try_from_standard_osc m)

-- MARK: outbound request builder (src/src/x32/to_console.rs)

/-- Request builder helper `util::new_node_buffer`: a `/node` message with
one string argument, encoded (encode failure falls back to the empty
default buffer). -/
def new_node_buffer (s : List Nat) : List Nat :=
  (Message.encode ⟨strBytes "/node", [.str s], false⟩).toOption.getD []

/-- Outbound console request, `x32::ConsoleRequest` (`u8` payloads). -/
inductive ConsoleRequest where
  | matrix (v : Nat)
  | bus (v : Nat)
  | dca (v : Nat)
  | channel (v : Nat)
  | aux (v : Nat)
  | main (v : Nat)
  | showInfo
  | showMode
  | currentCue
  | keepAlive
  deriving DecidableEq

/-- Request buffers for one request,
`impl From<ConsoleRequest> for Vec<Buffer>`. -/
def ConsoleRequest.buffers : ConsoleRequest → List (List Nat)
  | .bus v =>
    [new_node_buffer (strBytes "bus/" ++ pad2 v ++ strBytes "/mix"),
     new_node_buffer (strBytes "bus/" ++ pad2 v ++ strBytes "/config")]
  | .dca v =>
    [new_node_buffer (strBytes "dca/" ++ natBytes v ++ strBytes "/"),
     new_node_buffer (strBytes "dca/" ++ natBytes v ++ strBytes "/config")]
  | .channel v =>
    [new_node_buffer (strBytes "ch/" ++ pad2 v ++ strBytes "/mix"),
     new_node_buffer (strBytes "ch/" ++ pad2 v ++ strBytes "/config")]
  | .aux v =>
    [new_node_buffer (strBytes "auxin/" ++ pad2 v ++ strBytes "/mix"),
     new_node_buffer (strBytes "auxin/" ++ pad2 v ++ strBytes "/config")]
  | .matrix v =>
    [new_node_buffer (strBytes "mtx/" ++ pad2 v ++ strBytes "/mix"),
     new_node_buffer (strBytes "mtx/" ++ pad2 v ++ strBytes "/config")]
  | .showInfo =>
    [(Message.encode ⟨strBytes "/showdata", [], false⟩).toOption.getD []]
  | .showMode => [new_node_buffer (strBytes "-prefs/show_control")]
  | .currentCue => [new_node_buffer (strBytes "-show/prepos/current")]
  | .keepAlive =>
    [(Message.encode ⟨strBytes "/xremote", [], false⟩).toOption.getD []]
  | .main v =>
    [new_node_buffer (strBytes "main/" ++ (if v = 1 then strBytes "st" else strBytes "m") ++ strBytes "/mix"),
     new_node_buffer (strBytes "main/" ++ (if v = 1 then strBytes "st" else strBytes "m") ++ strBytes "/config")]

/-- Aggregate request `ConsoleRequest::full_update`, with the ranges
exactly as in the source (aux iterates `1..=6`). -/
def full_update : List (List Nat) :=
  ConsoleRequest.showInfo.buffers
    ++ ConsoleRequest.showMode.buffers
    ++ ConsoleRequest.currentCue.buffers
    ++ (ConsoleRequest.main 1).buffers
    ++ (ConsoleRequest.main 2).buffers
    ++ ((List.range 6).map (fun i => (ConsoleRequest.aux (i + 1)).buffers)).flatten
    ++ ((List.range 6).map (fun i => (ConsoleRequest.matrix (i + 1)).buffers)).flatten
    ++ ((List.range 16).map (fun i => (ConsoleRequest.bus (i + 1)).buffers)).flatten
    ++ ((List.range 8).map (fun i => (ConsoleRequest.dca (i + 1)).buffers)).flatten
    ++ ((List.range 32).map (fun i => (ConsoleRequest.channel (i + 1)).buffers)).flatten

end X32

namespace OSC

-- MARK: round-trip support lemmas

theorem be4_length (n : Nat) : (be4 n).length = 4 := rfl

theorem be8_length (n : Nat) : (be8 n).length = 8 := rfl

theorem beNat4_be4 (n : Nat) (rest : List Nat) (h : n < 2 ^ 32) :
    beNat4 (be4 n ++ rest) = n := by
  simp [be4, beNat4]
  omega

theorem paddedBytes_length_mod (v : List Nat) :
    (paddedBytes v).length % 4 = 0 := by
  simp [paddedBytes]
  omega

theorem paddedBytes_ne_nil (v : List Nat) : paddedBytes v ≠ [] := by
  simp [paddedBytes]
  intro h
  have := congrArg List.length h
  simp at this
  omega

theorem replicate_zero_all_zero {k : Nat} {b : Nat}
    (h : b ∈ List.replicate k (0 : Nat)) : b = 0 :=
  List.eq_of_mem_replicate h

theorem trimNulls_padded {s : List Nat} (hs : ¬ 0 ∈ s) (k : Nat) :
    trimNulls (s ++ List.replicate k 0) = s := by
  unfold trimNulls
  rw [List.reverse_append, List.reverse_replicate]
  rw [List.dropWhile_append]
  have hd : List.dropWhile (fun x => x = 0) (List.replicate k (0 : Nat)) = [] := by
    simp [List.dropWhile_eq_nil_iff]
  rw [hd]
  simp only [List.isEmpty_nil, if_true]
  have : List.dropWhile (fun x => x = 0) s.reverse = s.reverse := by
    cases hrev : s.reverse with
    | nil => simp
    | cons a t =>
      rw [List.dropWhile_cons]
      have ha : a ∈ s := List.mem_reverse.mp (hrev ▸ List.mem_cons_self a t)
      have hne : ¬ (a = 0) := fun h => hs (h ▸ ha)
      simp [hne]
  rw [this, List.reverse_reverse]

end OSC

namespace OSC

theorem getStringChunks_pad_aux :
    ∀ n (s rest : List Nat) (k : Nat), s.length ≤ n → ¬ 0 ∈ s → 1 ≤ k → k ≤ 4 →
      (s.length + k) % 4 = 0 →
      getStringChunks (s ++ (List.replicate k 0 ++ rest))
        = .ok (s ++ List.replicate k 0, rest) := by
  intro n
  induction n with
  | zero =>
    intro s rest k hlen _ hk1 hk4 hmod
    have hs : s = [] := List.length_eq_zero.mp (Nat.le_zero.mp hlen)
    subst hs
    have hk : k = 4 := by simp at hmod; omega
    subst hk
    simp [List.replicate, getStringChunks]
  | succ n ih =>
    intro s rest k hlen hmem hk1 hk4 hmod
    match s with
    | [] =>
      have hk : k = 4 := by simp at hmod; omega
      subst hk
      simp [List.replicate, getStringChunks]
    | [a] =>
      have hk : k = 3 := by simp at hmod; omega
      subst hk
      simp [List.replicate, getStringChunks]
    | [a, b] =>
      have hk : k = 2 := by simp at hmod; omega
      subst hk
      simp [List.replicate, getStringChunks]
    | [a, b, c] =>
      have hk : k = 1 := by simp at hmod; omega
      subst hk
      simp [List.replicate, getStringChunks]
    | a :: b :: c :: d :: s' =>
      have hd : d ≠ 0 := by
        intro h
        exact hmem (by simp [h])
      have hrec := ih s' rest k (by simp at hlen ⊢; omega)
        (fun h => hmem (by simp [h])) hk1 hk4 (by simp at hmod ⊢; omega)
      simp only [List.cons_append, getStringChunks, if_neg hd, List.append_eq, hrec]

theorem get_string_padded (s rest : List Nat) (hmem : ¬ 0 ∈ s)
    (hrest : rest.length % 4 = 0) :
    get_string (paddedBytes s ++ rest) = .ok (paddedBytes s, rest) := by
  unfold get_string
  have h1 : ¬ (paddedBytes s ++ rest).isEmpty := by
    simp [List.isEmpty_iff]
    intro h _
    exact paddedBytes_ne_nil s h
  have h2 : (paddedBytes s ++ rest).length % 4 = 0 := by
    have := paddedBytes_length_mod s
    simp
    omega
  rw [if_neg (by simp [h1]), if_neg (by omega)]
  unfold paddedBytes
  rw [List.append_assoc]
  exact getStringChunks_pad_aux s.length s rest _ (le_refl _) hmem
    (by omega) (by omega) (by omega)

theorem next_string_padded (s rest : List Nat) (hmem : ¬ 0 ∈ s)
    (hrest : rest.length % 4 = 0) :
    next_string (paddedBytes s ++ rest) = .ok (paddedBytes s, rest) := by
  unfold next_string
  rw [get_string_padded s rest hmem hrest]
  rfl

theorem get_bytes_exact (x rest : List Nat) (n : Nat) (hx : x.length = n)
    (hn0 : n ≠ 0) (hn4 : n % 4 = 0) (hrest : rest.length % 4 = 0) :
    get_bytes (x ++ rest) n = .ok (x, rest) := by
  unfold get_bytes
  have hxe : ¬ (x ++ rest).isEmpty := by
    simp [List.isEmpty_iff]
    intro h _
    apply hn0
    rw [← hx, h]
    rfl
  rw [if_neg hn0, if_neg (by simp_all), if_neg (by simp; omega),
    if_neg (by simp; omega)]
  rw [← hx]
  simp

theorem next_bytes_exact (x rest : List Nat) (n : Nat) (hx : x.length = n)
    (hn0 : n ≠ 0) (hn4 : n % 4 = 0) (hrest : rest.length % 4 = 0) :
    next_bytes (x ++ rest) n = .ok (x, rest) := by
  unfold next_bytes
  rw [get_bytes_exact x rest n hx hn0 hn4 hrest]
  rfl

end OSC

namespace OSC

theorem isUTF8_replicate_zero (k : Nat) :
    isUTF8 (List.replicate k 0) = true := by
  induction k with
  | zero => rfl
  | succ k ih =>
    rw [List.replicate_succ]
    rw [show isUTF8 (0 :: List.replicate k 0)
      = isUTF8 (List.replicate k 0) from by rw [isUTF8.eq_def]; simp]
    exact ih

theorem isUTF8_append_zeros_aux :
    ∀ n s, s.length ≤ n → isUTF8 s = true →
      ∀ k, isUTF8 (s ++ List.replicate k 0) = true := by
  intro n
  induction n with
  | zero =>
    intro s hl _ k
    have hse : s = [] := List.length_eq_zero.mp (Nat.le_zero.mp hl)
    subst hse
    simpa using isUTF8_replicate_zero k
  | succ n ih =>
    intro s hl hs k
    rcases s with _ | ⟨b0, t0⟩
    · simpa using isUTF8_replicate_zero k
    simp only [List.length_cons, Nat.succ_le_succ_iff] at hl
    rw [isUTF8.eq_def] at hs
    rw [List.cons_append, isUTF8.eq_def]
    by_cases h7 : b0 ≤ 0x7F
    · simp only [if_pos h7] at hs ⊢
      exact ih t0 hl hs k
    simp only [if_neg h7] at hs ⊢
    rcases t0 with _ | ⟨b1, t1⟩
    · simp at hs
    simp only [List.cons_append]
    simp only [List.length_cons] at hl
    by_cases hc2 : 0xC2 ≤ b0 ∧ b0 ≤ 0xDF
    · simp only [if_pos hc2, Bool.and_eq_true] at hs ⊢
      exact ⟨hs.1, ih t1 (by omega) hs.2 k⟩
    simp only [if_neg hc2] at hs ⊢
    rcases t1 with _ | ⟨b2, t2⟩
    · simp at hs
    simp only [List.cons_append]
    simp only [List.length_cons] at hl
    by_cases he0 : b0 = 0xE0
    · simp only [if_pos he0, Bool.and_eq_true] at hs ⊢
      exact ⟨hs.1, ih t2 (by omega) hs.2 k⟩
    simp only [if_neg he0] at hs ⊢
    by_cases he1 : (0xE1 ≤ b0 ∧ b0 ≤ 0xEC) ∨ b0 = 0xEE ∨ b0 = 0xEF
    · simp only [if_pos he1, Bool.and_eq_true] at hs ⊢
      exact ⟨hs.1, ih t2 (by omega) hs.2 k⟩
    simp only [if_neg he1] at hs ⊢
    by_cases hed : b0 = 0xED
    · simp only [if_pos hed, Bool.and_eq_true] at hs ⊢
      exact ⟨hs.1, ih t2 (by omega) hs.2 k⟩
    simp only [if_neg hed] at hs ⊢
    rcases t2 with _ | ⟨b3, t3⟩
    · simp at hs
    simp only [List.cons_append]
    simp only [List.length_cons] at hl
    by_cases hf0 : b0 = 0xF0
    · simp only [if_pos hf0, Bool.and_eq_true] at hs ⊢
      exact ⟨hs.1, ih t3 (by omega) hs.2 k⟩
    simp only [if_neg hf0] at hs ⊢
    by_cases hf1 : 0xF1 ≤ b0 ∧ b0 ≤ 0xF3
    · simp only [if_pos hf1, Bool.and_eq_true] at hs ⊢
      exact ⟨hs.1, ih t3 (by omega) hs.2 k⟩
    simp only [if_neg hf1] at hs ⊢
    by_cases hf4 : b0 = 0xF4
    · simp only [if_pos hf4, Bool.and_eq_true] at hs ⊢
      exact ⟨hs.1, ih t3 (by omega) hs.2 k⟩
    simp only [if_neg hf4] at hs
    simp at hs

theorem isUTF8_append_zeros {s : List Nat} (hs : isUTF8 s = true) (k : Nat) :
    isUTF8 (s ++ List.replicate k 0) = true :=
  isUTF8_append_zeros_aux s.length s (le_refl _) hs k

theorem isUTF8_ascii : ∀ s : List Nat, s.all (· < 128) = true → isUTF8 s = true := by
  intro s
  induction s with
  | nil => intro _; rfl
  | cons b t ih =>
    intro h
    simp only [List.all_cons, Bool.and_eq_true, decide_eq_true_eq] at h
    rw [isUTF8.eq_def]
    simp only [if_pos (by omega : b ≤ 0x7F)]
    exact ih h.2

end OSC

namespace OSC

-- MARK: round-trip validity predicates (claim C3, amended side conditions)

/-- Per-argument side conditions under which one OSC argument is
reproduced exactly by encode-then-decode: strings (Rust `String` values)
are valid UTF-8 with no NUL byte; machine scalars carry their Rust ranges
(`i32`, `i64`, `u32` seconds/fraction, `u8` color components, Unicode
scalar chars, f32/f64 bit patterns); blobs are shorter than `i32::MAX`;
type-list arguments and the `Unknown` error marker are excluded. -/
def ArgOK : OType → Bool
  | .str s => isUTF8 s && !s.contains 0
  | .typeList _ => false
  | .integer v => decide (-(2 ^ 31) ≤ v ∧ v < 2 ^ 31)
  | .timeTag t => decide (t.seconds < 2 ^ 32 ∧ t.fractional < 2 ^ 32)
  | .longInteger v => decide (-(2 ^ 63) ≤ v ∧ v < 2 ^ 63)
  | .float bits => decide (bits < 2 ^ 32)
  | .double bits => decide (bits < 2 ^ 64)
  | .boolean _ => true
  | .null => true
  | .bang => true
  | .color r g b a => decide (r < 256 ∧ g < 256 ∧ b < 256 ∧ a < 256)
  | .char c => decide (c < 0xD800 ∨ (0xE000 ≤ c ∧ c < 0x110000))
  | .blob v => decide (v.length < 2 ^ 31)
  | .unknown => false

/-- Message side conditions for exact round-tripping: non-empty ASCII
NUL-free address, the explicit-empty flag only with an empty argument
list, and every argument admissible. -/
def MsgOK (m : Message) : Bool :=
  (!m.address.isEmpty && m.address.all (· < 128) && !m.address.contains 0)
    && (!m.force_empty_args || m.args.isEmpty)
    && m.args.all ArgOK

mutual

/-- Packet side conditions: a message packet additionally must not share
its first eight encoded bytes with the bundle tag (address `#bundle`);
bundle times are in `u32` range and every member's encoding fits the
`i32` length prefix. -/
def PacketOK : Packet → Bool
  | .message m => MsgOK m && !(m.address = strBytes "#bundle" : Bool)
  | .bundle t msgs =>
    decide (t.seconds < 2 ^ 32 ∧ t.fractional < 2 ^ 32) && PacketsOK msgs

/-- List form of `PacketOK`, with the length-prefix bound per member. -/
def PacketsOK : List Packet → Bool
  | [] => true
  | p :: rest =>
    PacketOK p
      && decide (((packetEncode p).toOption.getD []).length < 2 ^ 31)
      && PacketsOK rest

end

theorem beNat4_be4_mod (n : Nat) (rest : List Nat) :
    beNat4 (be4 n ++ rest) = n % 2 ^ 32 := by
  simp [be4, beNat4]
  omega

theorem be4_append_drop (n : Nat) (rest : List Nat) :
    (be4 n ++ rest).drop 4 = rest := by
  simp [be4]

theorem i32ofU32_u32ofI32 {v : Int} (h1 : -(2 ^ 31) ≤ v) (h2 : v < 2 ^ 31) :
    i32ofU32 (u32ofI32 v) = v := by
  unfold i32ofU32 u32ofI32
  split <;> omega

theorem u32ofI32_lt (v : Int) : u32ofI32 v < 2 ^ 32 := by
  unfold u32ofI32
  omega

theorem i64ofU64_u64ofI64 {v : Int} (h1 : -(2 ^ 63) ≤ v) (h2 : v < 2 ^ 63) :
    i64ofU64 (u64ofI64 v) = v := by
  unfold i64ofU64 u64ofI64
  split <;> omega

theorem toBytes_mod4 (t : OType) : (OType.toBytes t).length % 4 = 0 := by
  cases t <;> simp [OType.toBytes, be4, be8, paddedBytes] <;> try omega
  case typeList l => split <;> simp <;> omega

theorem flatten_toBytes_mod4 (args : List OType) :
    ((args.map OType.toBytes).flatten).length % 4 = 0 := by
  induction args with
  | nil => rfl
  | cons a rest ih =>
    simp only [List.map_cons, List.flatten_cons, List.length_append]
    have := toBytes_mod4 a
    omega

end OSC

namespace OSC

theorem beNat8_be8 (u : Nat) (hu : u < 2 ^ 64) : beNat8 (be8 u) = u := by
  have h1 : beNat4 (be4 (u / 2 ^ 32) ++ be4 u) = u / 2 ^ 32 % 2 ^ 32 :=
    beNat4_be4_mod _ _
  have h2 : (be4 (u / 2 ^ 32) ++ be4 u).drop 4 = be4 u := be4_append_drop _ _
  have h3 := beNat4_be4_mod u []
  rw [List.append_nil] at h3
  unfold beNat8 be8
  rw [h1, h2, h3]
  omega

theorem typeFromBytes_i (u : Nat) (hu : u < 2 ^ 32) :
    typeFromBytes (be4 u) 'i' = .ok (.integer (i32ofU32 u)) := by
  have h0 := beNat4_be4_mod u []
  rw [List.append_nil] at h0
  have hlt : u % 4294967296 = u := Nat.mod_eq_of_lt (by omega)
  simp [typeFromBytes, be4_length, h0, hlt]

theorem typeFromBytes_f (u : Nat) (hu : u < 2 ^ 32) :
    typeFromBytes (be4 u) 'f' = .ok (.float u) := by
  have h0 := beNat4_be4_mod u []
  rw [List.append_nil] at h0
  have hlt : u % 4294967296 = u := Nat.mod_eq_of_lt (by omega)
  simp [typeFromBytes, be4_length, h0, hlt]

theorem typeFromBytes_h (u : Nat) (hu : u < 2 ^ 64) :
    typeFromBytes (be8 u) 'h' = .ok (.longInteger (i64ofU64 u)) := by
  simp [typeFromBytes, be8_length, beNat8_be8 u hu]

theorem typeFromBytes_d (u : Nat) (hu : u < 2 ^ 64) :
    typeFromBytes (be8 u) 'd' = .ok (.double u) := by
  simp [typeFromBytes, be8_length, beNat8_be8 u hu]

theorem typeFromBytes_t (s f : Nat) (hs : s < 2 ^ 32) (hf : f < 2 ^ 32) :
    typeFromBytes (be4 s ++ be4 f) 't' = .ok (.timeTag ⟨s, f⟩) := by
  have hlen : (be4 s ++ be4 f).length = 8 := rfl
  have h1 : beNat4 (be4 s ++ be4 f) = s := by
    rw [beNat4_be4_mod, Nat.mod_eq_of_lt hs]
  have h3 := beNat4_be4_mod f []
  rw [List.append_nil] at h3
  have hlt : f % 4294967296 = f := Nat.mod_eq_of_lt (by omega)
  simp [typeFromBytes, hlen, h1, be4_append_drop, h3, hlt]

theorem typeFromBytes_c (c : Nat)
    (hc : c < 0xD800 ∨ (0xE000 ≤ c ∧ c < 0x110000)) :
    typeFromBytes (be4 c) 'c' = .ok (.char c) := by
  have h0 := beNat4_be4_mod c []
  rw [List.append_nil] at h0
  have hlt : c % 4294967296 = c := Nat.mod_eq_of_lt (by omega)
  simp [typeFromBytes, be4_length, h0, hlt]
  intro h1
  omega

theorem typeFromBytes_r (r g b a : Nat) :
    typeFromBytes [r, g, b, a] 'r' = .ok (.color r g b a) := by
  simp [typeFromBytes]

theorem typeFromBytes_s (s : List Nat) (hu : isUTF8 s = true) (hn : ¬ 0 ∈ s) :
    typeFromBytes (paddedBytes s) 's' = .ok (.str s) := by
  have hlen := paddedBytes_length_mod s
  have hne : (paddedBytes s).length ≠ 0 := by
    intro h
    exact paddedBytes_ne_nil s (List.length_eq_zero.mp h)
  have hutf : isUTF8 (paddedBytes s) = true := isUTF8_append_zeros hu _
  unfold typeFromBytes
  rw [if_neg (by omega)]
  rw [if_neg (by simp [hne]), if_neg (by simp [hne]), if_neg (by simp [hne]),
    if_neg (by simp [hne]), if_neg (by simp [hne]), if_neg (by simp),
    if_neg (by simp), if_neg (by simp), if_neg (by simp), if_neg (by simp),
    if_neg (by simp), if_neg (by simp), if_neg (by simp [hne])]
  rw [if_pos rfl, if_pos hutf]
  rw [show trimNulls (paddedBytes s) = s from trimNulls_padded hn _]

end OSC

namespace OSC

theorem typeFromBytes_comma (chars : List Char)
    (hnz : ∀ c ∈ chars, Char.toNat c ≠ 0) :
    typeFromBytes (paddedBytes (0x2C :: chars.map Char.toNat)) ','
      = .ok (.typeList chars) := by
  set l := (0x2C : Nat) :: chars.map Char.toNat with hl
  have hlen := paddedBytes_length_mod l
  have hne : (paddedBytes l).length ≠ 0 := by
    intro h
    exact paddedBytes_ne_nil l (List.length_eq_zero.mp h)
  unfold typeFromBytes
  rw [if_neg (by omega)]
  rw [if_neg (by simp [hne]), if_neg (by simp [hne]), if_neg (by simp [hne]),
    if_neg (by simp [hne]), if_neg (by simp [hne]), if_neg (by simp),
    if_neg (by simp), if_neg (by simp), if_neg (by simp), if_neg (by simp),
    if_neg (by simp), if_neg (by simp), if_neg (by simp [hne]),
    if_neg (by simp)]
  rw [if_pos rfl]
  have hdrop : (paddedBytes l).drop 1 = chars.map Char.toNat
      ++ List.replicate (4 - l.length % 4) 0 := by
    simp [paddedBytes, hl]
  rw [hdrop]
  rw [List.filter_append]
  have h1 : (chars.map Char.toNat).filter (fun x => x ≠ 0)
      = chars.map Char.toNat := by
    apply List.filter_eq_self.mpr
    intro a ha
    obtain ⟨c, hc, rfl⟩ := List.mem_map.mp ha
    simpa using hnz c hc
  have h2 : (List.replicate (4 - l.length % 4) (0 : Nat)).filter
      (fun x => x ≠ 0) = [] := by
    apply List.filter_eq_nil_iff.mpr
    intro a ha
    simp [List.eq_of_mem_replicate ha]
  rw [h1, h2, List.append_nil]
  rw [List.map_map]
  have h3 : (Char.ofNat ∘ Char.toNat) = id := by
    funext c
    exact Char.ofNat_toNat c
  rw [h3, List.map_id]

theorem typeFromBytes_b (v : List Nat) (hv : v.length < 2 ^ 31) :
    typeFromBytes (OType.toBytes (.blob v)) 'b' = .ok (.blob v) := by
  have hmod : v.length % 2 ^ 32 = v.length := Nat.mod_eq_of_lt (by omega)
  have hmodn : v.length % 4294967296 = v.length := hmod
  have hshape : OType.toBytes (.blob v)
      = be4 v.length ++ (v ++ List.replicate ((4 - (4 + v.length) % 4) % 4) 0) := by
    simp [OType.toBytes, hmodn, be4_length]
  have hlen4 := toBytes_mod4 (.blob v)
  have hlength : (OType.toBytes (.blob v)).length
      = 4 + v.length + (4 - (4 + v.length) % 4) % 4 := by
    rw [hshape]
    simp [be4_length]
    omega
  unfold typeFromBytes
  rw [if_neg (by omega)]
  have hne : (OType.toBytes (.blob v)).length ≠ 0 := by omega
  rw [if_neg (by simp [hne]), if_neg (by simp [hne]), if_neg (by simp [hne]),
    if_neg (by simp [hne]), if_neg (by simp [hne]), if_neg (by simp),
    if_neg (by simp), if_neg (by simp), if_neg (by simp), if_neg (by simp),
    if_neg (by simp), if_neg (by simp), if_neg (by simp [hne]),
    if_neg (by simp), if_neg (by simp)]
  rw [if_pos rfl]
  have hbe : beNat4 (OType.toBytes (.blob v)) = v.length := by
    rw [hshape, beNat4_be4_mod, hmod]
  have hi32 : i32ofU32 v.length = (v.length : Int) := by
    unfold i32ofU32
    rw [if_pos (by exact_mod_cast hv)]
  have husize : usizeOfI32 (v.length : Int) = v.length := by
    unfold usizeOfI32
    omega
  have hend : (v.length + 4) % 2 ^ 64 = v.length + 4 := Nat.mod_eq_of_lt (by omega)
  have hdrop : (OType.toBytes (.blob v)).drop 4
      = v ++ List.replicate ((4 - (4 + v.length) % 4) % 4) 0 := by
    rw [hshape, be4_append_drop]
  simp only [hbe, hi32, husize, hend, hdrop]
  rw [if_pos (by omega)]
  have htake : (v ++ List.replicate ((4 - (4 + v.length) % 4) % 4) 0).take
      (v.length + 4 - 4) = v := by
    simp
  rw [htake]

end OSC

namespace OSC

theorem u64ofI64_lt (v : Int) : u64ofI64 v < 2 ^ 64 := by
  unfold u64ofI64
  omega

theorem next_block_with_size_blob (v rest : List Nat) (hv : v.length < 2 ^ 31)
    (hrest : rest.length % 4 = 0) :
    next_block_with_size (OType.toBytes (.blob v) ++ rest)
      = .ok (OType.toBytes (.blob v), rest) := by
  have hmod : v.length % 2 ^ 32 = v.length := Nat.mod_eq_of_lt (by omega)
  have hmodn : v.length % 4294967296 = v.length := hmod
  have hshape : OType.toBytes (.blob v)
      = be4 v.length ++ (v ++ List.replicate ((4 - (4 + v.length) % 4) % 4) 0) := by
    simp [OType.toBytes, hmodn, be4_length]
  have hlen4 := toBytes_mod4 (.blob v)
  have hlength : (OType.toBytes (.blob v)).length
      = 4 + v.length + (4 - (4 + v.length) % 4) % 4 := by
    rw [hshape]
    simp [be4_length]
    omega
  unfold next_block_with_size get_next_byte_block
  have hbe : beNat4 (OType.toBytes (.blob v) ++ rest) = v.length := by
    rw [hshape, List.append_assoc, beNat4_be4_mod, hmod]
  have hi32 : i32ofU32 v.length = (v.length : Int) := by
    unfold i32ofU32
    rw [if_pos (by exact_mod_cast hv)]
  have husize : usizeOfI32 (v.length : Int) = v.length := by
    unfold usizeOfI32
    omega
  rw [if_neg (by simp only [List.length_append]; omega),
    if_neg (by simp only [List.length_append]; omega)]
  simp only [hbe, hi32, husize]
  have hTot : (if v.length % 4 = 0 then v.length
      else (v.length + (4 - v.length % 4)) % 2 ^ 64)
      = v.length + (4 - (4 + v.length) % 4) % 4 := by
    split <;> rename_i hsp
    · omega
    · rw [Nat.mod_eq_of_lt (by omega)]
      omega
  rw [hTot]
  have hchunk : (v.length + (4 - (4 + v.length) % 4) % 4 + 4) % 2 ^ 64
      = (OType.toBytes (.blob v)).length := by
    rw [Nat.mod_eq_of_lt (by omega)]
    omega
  rw [hchunk]
  rw [if_neg (by simp only [List.length_append]; omega)]
  rw [List.take_left, List.drop_left]
  rfl

theorem decodeArg_toBytes :
    ∀ (t : OType) (rest : List Nat), ArgOK t = true → rest.length % 4 = 0 →
      ∀ ch, t.typeChar = .ok ch →
        decodeArg ch (OType.toBytes t ++ rest) = some (t, rest) := by
  intro t rest h hrest ch hch
  cases t with
  | str s =>
    simp only [OType.typeChar, Except.ok.injEq] at hch
    subst hch
    have hcomp : isUTF8 s = true ∧ ¬ 0 ∈ s := by
      simpa [ArgOK] using h
    unfold decodeArg
    rw [if_neg (by decide), if_neg (by decide), if_neg (by decide),
      if_neg (by decide), if_neg (by decide), if_pos rfl]
    rw [show OType.toBytes (.str s) = paddedBytes s from rfl]
    rw [next_string_padded s rest hcomp.2 hrest]
    unfold tryFromBufferPair
    simp only []
    rw [typeFromBytes_s s hcomp.1 hcomp.2]
    rfl
  | integer v =>
    simp only [OType.typeChar, Except.ok.injEq] at hch
    subst hch
    have hcomp : -(2 ^ 31) ≤ v ∧ v < 2 ^ 31 := by simpa [ArgOK] using h
    unfold decodeArg
    rw [if_pos (by decide)]
    rw [show OType.toBytes (.integer v) = be4 (u32ofI32 v) from rfl]
    rw [next_bytes_exact (be4 (u32ofI32 v)) rest 4 rfl (by omega) (by omega) hrest]
    unfold tryFromBufferPair
    simp only []
    rw [typeFromBytes_i _ (u32ofI32_lt v)]
    rw [i32ofU32_u32ofI32 hcomp.1 hcomp.2]
    rfl
  | longInteger v =>
    simp only [OType.typeChar, Except.ok.injEq] at hch
    subst hch
    have hcomp : -(2 ^ 63) ≤ v ∧ v < 2 ^ 63 := by simpa [ArgOK] using h
    unfold decodeArg
    rw [if_neg (by decide), if_pos (by decide)]
    rw [show OType.toBytes (.longInteger v) = be8 (u64ofI64 v) from rfl]
    rw [next_bytes_exact (be8 (u64ofI64 v)) rest 8 rfl (by omega) (by omega) hrest]
    unfold tryFromBufferPair
    simp only []
    rw [typeFromBytes_h _ (u64ofI64_lt v)]
    rw [i64ofU64_u64ofI64 hcomp.1 hcomp.2]
    rfl
  | float bits =>
    simp only [OType.typeChar, Except.ok.injEq] at hch
    subst hch
    have hcomp : bits < 2 ^ 32 := by simpa [ArgOK] using h
    unfold decodeArg
    rw [if_pos (by decide)]
    rw [show OType.toBytes (.float bits) = be4 bits from rfl]
    rw [next_bytes_exact (be4 bits) rest 4 rfl (by omega) (by omega) hrest]
    unfold tryFromBufferPair
    simp only []
    rw [typeFromBytes_f _ hcomp]
    rfl
  | double bits =>
    simp only [OType.typeChar, Except.ok.injEq] at hch
    subst hch
    have hcomp : bits < 2 ^ 64 := by simpa [ArgOK] using h
    unfold decodeArg
    rw [if_neg (by decide), if_pos (by decide)]
    rw [show OType.toBytes (.double bits) = be8 bits from rfl]
    rw [next_bytes_exact (be8 bits) rest 8 rfl (by omega) (by omega) hrest]
    unfold tryFromBufferPair
    simp only []
    rw [typeFromBytes_d _ hcomp]
    rfl
  | timeTag tt =>
    simp only [OType.typeChar, Except.ok.injEq] at hch
    subst hch
    have hcomp : tt.seconds < 2 ^ 32 ∧ tt.fractional < 2 ^ 32 := by
      simpa [ArgOK] using h
    unfold decodeArg
    rw [if_neg (by decide), if_pos (by decide)]
    rw [show OType.toBytes (.timeTag tt) = be4 tt.seconds ++ be4 tt.fractional from rfl]
    rw [next_bytes_exact (be4 tt.seconds ++ be4 tt.fractional) rest 8 rfl
      (by omega) (by omega) hrest]
    unfold tryFromBufferPair
    simp only []
    rw [typeFromBytes_t tt.seconds tt.fractional hcomp.1 hcomp.2]
    rfl
  | boolean b =>
    cases b with
    | true =>
      simp only [OType.typeChar, if_pos rfl, Except.ok.injEq] at hch
      subst hch
      unfold decodeArg
      rw [if_neg (by decide), if_neg (by decide), if_pos (by decide)]
      rfl
    | false =>
      simp only [OType.typeChar, Except.ok.injEq] at hch
      subst hch
      unfold decodeArg
      rw [if_neg (by decide), if_neg (by decide), if_pos (by decide)]
      rfl
  | null =>
    simp only [OType.typeChar, Except.ok.injEq] at hch
    subst hch
    unfold decodeArg
    rw [if_neg (by decide), if_neg (by decide), if_neg (by decide),
      if_pos (by decide)]
    rfl
  | bang =>
    simp only [OType.typeChar, Except.ok.injEq] at hch
    subst hch
    unfold decodeArg
    rw [if_neg (by decide), if_neg (by decide), if_neg (by decide),
      if_neg (by decide), if_pos (by decide)]
    rfl
  | color r g b a =>
    simp only [OType.typeChar, Except.ok.injEq] at hch
    subst hch
    unfold decodeArg
    rw [if_pos (by decide)]
    rw [show OType.toBytes (.color r g b a) = [r, g, b, a] from rfl]
    rw [next_bytes_exact [r, g, b, a] rest 4 rfl (by omega) (by omega) hrest]
    unfold tryFromBufferPair
    simp only []
    rw [typeFromBytes_r]
    rfl
  | char c =>
    simp only [OType.typeChar, Except.ok.injEq] at hch
    subst hch
    have hcomp : c < 0xD800 ∨ (0xE000 ≤ c ∧ c < 0x110000) := by
      simpa [ArgOK] using h
    unfold decodeArg
    rw [if_pos (by decide)]
    rw [show OType.toBytes (.char c) = be4 c from rfl]
    rw [next_bytes_exact (be4 c) rest 4 rfl (by omega) (by omega) hrest]
    unfold tryFromBufferPair
    simp only []
    rw [typeFromBytes_c _ hcomp]
    rfl
  | blob v =>
    simp only [OType.typeChar, Except.ok.injEq] at hch
    subst hch
    have hcomp : v.length < 2 ^ 31 := by simpa [ArgOK] using h
    unfold decodeArg
    rw [if_neg (by decide), if_neg (by decide), if_neg (by decide),
      if_neg (by decide), if_neg (by decide), if_neg (by decide),
      if_pos rfl]
    rw [next_block_with_size_blob v rest hcomp hrest]
    unfold tryFromBufferPair
    simp only []
    rw [typeFromBytes_b v hcomp]
    rfl
  | typeList l => exact absurd h (by simp [ArgOK])
  | unknown => exact absurd hch (by simp [OType.typeChar])

end OSC

namespace OSC

theorem ArgOK_typeChar_exists (t : OType) (h : ArgOK t = true) :
    ∃ ch, t.typeChar = .ok ch := by
  cases t with
  | boolean b => exact ⟨if b then 'T' else 'F', rfl⟩
  | typeList l => exact absurd h (by simp [ArgOK])
  | unknown => exact absurd h (by simp [ArgOK])
  | str s => exact ⟨'s', rfl⟩
  | integer v => exact ⟨'i', rfl⟩
  | timeTag tt => exact ⟨'t', rfl⟩
  | longInteger v => exact ⟨'h', rfl⟩
  | float b => exact ⟨'f', rfl⟩
  | double b => exact ⟨'d', rfl⟩
  | null => exact ⟨'N', rfl⟩
  | bang => exact ⟨'I', rfl⟩
  | color r g b a => exact ⟨'r', rfl⟩
  | char c => exact ⟨'c', rfl⟩
  | blob v => exact ⟨'b', rfl⟩

theorem typeChar_ascii_nonzero (t : OType) (ch : Char)
    (hch : t.typeChar = .ok ch) : Char.toNat ch ≠ 0 ∧ Char.toNat ch < 128 := by
  cases t with
  | boolean b => cases b <;> cases hch <;> exact ⟨by decide, by decide⟩
  | unknown => simp [OType.typeChar] at hch
  | str s => cases hch; exact ⟨by decide, by decide⟩
  | typeList l => cases hch; exact ⟨by decide, by decide⟩
  | integer v => cases hch; exact ⟨by decide, by decide⟩
  | timeTag tt => cases hch; exact ⟨by decide, by decide⟩
  | longInteger v => cases hch; exact ⟨by decide, by decide⟩
  | float b => cases hch; exact ⟨by decide, by decide⟩
  | double b => cases hch; exact ⟨by decide, by decide⟩
  | null => cases hch; exact ⟨by decide, by decide⟩
  | bang => cases hch; exact ⟨by decide, by decide⟩
  | color r g b a => cases hch; exact ⟨by decide, by decide⟩
  | char c => cases hch; exact ⟨by decide, by decide⟩
  | blob v => cases hch; exact ⟨by decide, by decide⟩

theorem all_ArgOK_no_unknown {args : List OType} (h : args.all ArgOK = true) :
    (args.any (fun a => a matches .unknown)) = false := by
  rw [List.any_eq_false]
  intro a ha
  have := List.all_eq_true.mp h a ha
  cases a <;> simp_all [ArgOK]

theorem decodeArgs_encode :
    ∀ (args : List OType) (rest : List Nat), args.all ArgOK = true →
      rest.length % 4 = 0 →
      decodeArgs (args.filterMap (fun a => a.typeChar.toOption))
        ((args.map OType.toBytes).flatten ++ rest) = some (args, rest) := by
  intro args
  induction args with
  | nil => intro rest _ _; simp [decodeArgs]
  | cons a args ih =>
    intro rest hall hrest
    simp only [List.all_cons, Bool.and_eq_true] at hall
    obtain ⟨ch, hch⟩ := ArgOK_typeChar_exists a hall.1
    have hchars : (a :: args).filterMap (fun a => a.typeChar.toOption)
        = ch :: args.filterMap (fun a => a.typeChar.toOption) := by
      simp [List.filterMap_cons, hch, Except.toOption]
    rw [hchars]
    have hbuf : (((a :: args).map OType.toBytes).flatten ++ rest)
        = OType.toBytes a ++ ((args.map OType.toBytes).flatten ++ rest) := by
      simp
    rw [hbuf]
    unfold decodeArgs
    rw [decodeArg_toBytes a _ hall.1
      (by simp only [List.length_append]
          have := flatten_toBytes_mod4 args
          omega) ch hch]
    simp only []
    rw [ih rest hall.2 hrest]

theorem message_roundtrip (m : Message) (h : MsgOK m = true) :
    ∃ buf, m.encode = .ok buf ∧ Message.decode buf = .ok m := by
  have hMS := h
  unfold MsgOK at hMS
  simp only [Bool.and_eq_true] at hMS
  obtain ⟨⟨⟨⟨he, hascii⟩, hc0⟩, hy⟩, hargs⟩ := hMS
  have hne : ¬ m.address.isEmpty := by simpa using he
  have h0 : ¬ 0 ∈ m.address := by simpa using hc0
  have hforce : m.force_empty_args = false ∨ m.args = [] := by
    rcases Bool.or_eq_true _ _ |>.mp hy with h1 | h1
    · left; simpa using h1
    · right; simpa using h1
  have hvalid : m.is_valid = true := by
    unfold Message.is_valid
    simp only [Bool.and_eq_true]
    exact ⟨⟨hascii, by simpa using hne⟩, by simp [all_ArgOK_no_unknown hargs]⟩
  have hTLAB : ∀ x : List Nat, x = (if m.force_empty_args && m.args.isEmpty
        then [0x2c, 0, 0, 0]
        else (OType.typeList m.typeListChars).toBytes)
        ++ (m.args.map OType.toBytes).flatten → x.length % 4 = 0 := by
    intro x hx
    subst hx
    have h1 := flatten_toBytes_mod4 m.args
    have h2 := toBytes_mod4 (.typeList m.typeListChars)
    rw [List.length_append]
    split
    · simp only [List.length_cons, List.length_nil]
      omega
    · omega
  refine ⟨_, by unfold Message.encode; rw [if_neg (by simp [hvalid])], ?_⟩
  unfold Message.decode
  rw [if_neg (by
    have h1 := paddedBytes_length_mod m.address
    have h2 := hTLAB _ rfl
    rw [List.length_append] at h2
    rw [List.length_append, List.length_append]
    omega)]
  rw [List.append_assoc]
  rw [next_string_padded m.address _ h0 (hTLAB _ rfl)]
  unfold tryFromBufferPair
  simp only []
  rw [typeFromBytes_s m.address (isUTF8_ascii _ hascii) h0]
  simp only [Except.map]
  by_cases hanil : m.args = []
  · by_cases hfe : m.force_empty_args = true
    · have hshape : (if m.force_empty_args && m.args.isEmpty
          then [(0x2c : Nat), 0, 0, 0]
          else (OType.typeList m.typeListChars).toBytes)
          ++ (m.args.map OType.toBytes).flatten = [0x2c, 0, 0, 0] := by
        rw [if_pos (by simp [hfe, hanil])]
        simp [hanil]
      rw [hshape]
      rw [show next_string [0x2c, 0, 0, 0] = .ok ([0x2c, 0, 0, 0], []) from rfl]
      simp only []
      rw [show typeFromBytes [0x2c, 0, 0, 0] ',' = .ok (.typeList []) from rfl]
      simp only [List.isEmpty_nil, if_true]
      cases m with
      | mk a b c =>
        simp only at hanil hfe
        subst hanil hfe
        rfl
    · have hshape : (if m.force_empty_args && m.args.isEmpty
          then [(0x2c : Nat), 0, 0, 0]
          else (OType.typeList m.typeListChars).toBytes)
          ++ (m.args.map OType.toBytes).flatten = [] := by
        rw [if_neg (by simp [hfe])]
        simp [hanil, OType.toBytes, Message.typeListChars]
      rw [hshape]
      rw [show next_string [] = .error (.packet .underrun) from rfl]
      simp only []
      cases m with
      | mk a b c =>
        simp only at hanil
        simp only [Bool.not_eq_true] at hfe
        subst hanil
        subst hfe
        rfl
  · have hfe : m.force_empty_args = false := by
      rcases hforce with h1 | h1
      · exact h1
      · exact absurd h1 hanil
    have hcharsne : m.typeListChars ≠ [] := by
      unfold Message.typeListChars
      cases hargs2 : m.args with
      | nil => exact absurd hargs2 hanil
      | cons a rest =>
        have hOK : ArgOK a = true := by
          rw [hargs2] at hargs
          simp only [List.all_cons, Bool.and_eq_true] at hargs
          exact hargs.1
        obtain ⟨ch, hch⟩ := ArgOK_typeChar_exists a hOK
        simp [List.filterMap_cons, hch, Except.toOption]
    have hshape : (if m.force_empty_args && m.args.isEmpty
        then [(0x2c : Nat), 0, 0, 0]
        else (OType.typeList m.typeListChars).toBytes)
        ++ (m.args.map OType.toBytes).flatten
        = paddedBytes (0x2C :: (m.typeListChars).map Char.toNat)
          ++ (m.args.map OType.toBytes).flatten := by
      rw [if_neg (by simp [hfe])]
      rw [show OType.toBytes (.typeList m.typeListChars)
        = if m.typeListChars.isEmpty then []
          else paddedBytes (0x2c :: (m.typeListChars).map Char.toNat) from rfl]
      rw [if_neg (by simpa using hcharsne)]
    rw [hshape]
    have hnz : ∀ c ∈ m.typeListChars, Char.toNat c ≠ 0 := by
      intro c hc
      unfold Message.typeListChars at hc
      obtain ⟨a, ha, hca⟩ := List.mem_filterMap.mp hc
      have hOK := List.all_eq_true.mp hargs a ha
      have hok : a.typeChar = .ok c := by
        cases hx : a.typeChar with
        | ok d =>
          rw [hx] at hca
          simp only [Except.toOption, Option.some.injEq] at hca
          rw [hca]
        | error e =>
          rw [hx] at hca
          simp [Except.toOption] at hca
      exact (typeChar_ascii_nonzero a c hok).1
    have h0TL : ¬ (0 : Nat) ∈ 0x2C :: (m.typeListChars).map Char.toNat := by
      intro hmem
      rcases List.mem_cons.mp hmem with h1 | h1
      · cases h1
      · obtain ⟨c, hc, hc0⟩ := List.mem_map.mp h1
        exact hnz c hc hc0
    rw [next_string_padded _ _ h0TL (flatten_toBytes_mod4 m.args)]
    try simp only []
    rw [typeFromBytes_comma m.typeListChars hnz]
    try simp only []
    rw [if_neg (by simpa using hcharsne)]
    have hdec := decodeArgs_encode m.args [] hargs rfl
    rw [List.append_nil] at hdec
    rw [show List.filterMap (fun a => a.typeChar.toOption) m.args
      = m.typeListChars from rfl] at hdec
    rw [hdec]
    cases m with
    | mk a b c =>
      simp only at hfe
      subst hfe
      rfl

end OSC

namespace OSC

theorem message_encode_mod4 (m : Message) (b : List Nat)
    (h : m.encode = .ok b) : b.length % 4 = 0 := by
  unfold Message.encode at h
  split at h
  · cases h
  · cases h
    have h1 := paddedBytes_length_mod m.address
    have h2 := flatten_toBytes_mod4 m.args
    have h3 := toBytes_mod4 (.typeList m.typeListChars)
    rw [List.length_append, List.length_append]
    split
    · simp only [List.length_cons, List.length_nil]
      omega
    · omega

mutual

theorem packetEncode_mod4 :
    ∀ (p : Packet) (b : List Nat), packetEncode p = .ok b → b.length % 4 = 0
  | .message m, b => by
    intro h
    exact message_encode_mod4 m b h
  | .bundle t msgs, b => by
    intro h
    unfold packetEncode at h
    cases hi : bundleEncodeItems msgs with
    | error e => rw [hi] at h; cases h
    | ok items =>
      rw [hi] at h
      cases h
      have h1 := bundleEncodeItems_mod4 msgs items hi
      simp only [List.length_append, BUNDLE_TAG, be4]
      simp
      omega

theorem bundleEncodeItems_mod4 :
    ∀ (ps : List Packet) (b : List Nat), bundleEncodeItems ps = .ok b →
      b.length % 4 = 0
  | [], b => by
    intro h
    cases h
    rfl
  | p :: rest, b => by
    intro h
    unfold bundleEncodeItems at h
    cases he : packetEncode p with
    | error e => rw [he] at h; cases h
    | ok pb =>
      rw [he] at h
      cases hr : bundleEncodeItems rest with
      | error e => rw [hr] at h; cases h
      | ok rb =>
        rw [hr] at h
        cases h
        have h1 := packetEncode_mod4 p pb he
        have h2 := bundleEncodeItems_mod4 rest rb hr
        simp only [List.length_append, be4]
        simp
        omega

end

theorem next_block_exact (x rest : List Nat) (hx : x.length < 2 ^ 31)
    (hxa : x.length % 4 = 0) (hresta : rest.length % 4 = 0) :
    next_block (be4 x.length ++ (x ++ rest)) = some (.ok (x, rest)) := by
  have hlen : (be4 x.length ++ (x ++ rest)).length
      = 4 + x.length + rest.length := by
    simp [be4]
    omega
  have hbe : beNat4 (be4 x.length ++ (x ++ rest)) = x.length := by
    rw [beNat4_be4_mod, Nat.mod_eq_of_lt (by omega)]
  have hi32 : i32ofU32 x.length = (x.length : Int) := by
    unfold i32ofU32
    rw [if_pos (by exact_mod_cast hx)]
  have husize : usizeOfI32 (x.length : Int) = x.length := by
    unfold usizeOfI32
    omega
  unfold next_block get_next_block
  rw [if_neg (by omega), if_neg (by omega)]
  simp only [hbe, hi32, husize]
  have hchunk : (x.length + 4) % 2 ^ 64 = x.length + 4 :=
    Nat.mod_eq_of_lt (by omega)
  rw [hchunk]
  rw [if_neg (by omega), if_neg (by omega)]
  rw [be4_append_drop]
  have hdrop : (be4 x.length ++ (x ++ rest)).drop (x.length + 4)
      = rest := by
    rw [show x.length + 4 = 4 + x.length from by omega]
    rw [← List.drop_drop, be4_append_drop, List.drop_left]
  rw [hdrop]
  have htake : (x ++ rest).take (x.length + 4 - 4) = x := by
    simp
  rw [htake]
  rfl

theorem next_string_bundle_tag (rest : List Nat)
    (hrest : rest.length % 4 = 0) :
    next_string (BUNDLE_TAG ++ rest) = .ok (BUNDLE_TAG, rest) := by
  have hsh : BUNDLE_TAG ++ rest
      = 0x23 :: 0x62 :: 0x75 :: 0x6e :: (0x64 :: 0x6c :: 0x65 :: 0x0 :: rest) := rfl
  unfold next_string get_string
  rw [if_neg (by simp [BUNDLE_TAG]), if_neg (by simp [BUNDLE_TAG]; omega)]
  rw [hsh]
  rw [getStringChunks]
  rw [if_neg (by omega)]
  rw [getStringChunks]
  rw [if_pos rfl]
  rfl

end OSC

namespace OSC

theorem message_not_bundle_prefix (a r : List Nat)
    (h0 : ¬ 0 ∈ a) (hne : a ≠ strBytes "#bundle") :
    BUNDLE_TAG.isPrefixOf (paddedBytes a ++ r) = false := by
  by_contra hcon
  rw [Bool.not_eq_false, List.isPrefixOf_iff_prefix] at hcon
  rw [paddedBytes, List.append_assoc] at hcon
  rcases Nat.lt_or_ge a.length 4 with hA | hA
  · have h3 := hcon.getElem (show 3 < BUNDLE_TAG.length by decide)
    rw [List.getElem_append_right (by omega)] at h3
    rw [List.getElem_append_left (by simp only [List.length_replicate]; omega)] at h3
    rw [List.getElem_replicate] at h3
    exact absurd h3 (by decide)
  · rcases Nat.lt_or_ge a.length 7 with hB | hB
    · have hi := hcon.getElem
        (show a.length < BUNDLE_TAG.length by simp [BUNDLE_TAG]; omega)
      rw [List.getElem_append_right (le_refl _)] at hi
      simp only [Nat.sub_self] at hi
      rw [List.getElem_append_left (by simp only [List.length_replicate]; omega)] at hi
      rw [List.getElem_replicate] at hi
      have hv : a.length = 4 ∨ a.length = 5 ∨ a.length = 6 := by omega
      rcases hv with h4 | h5 | h6
      · simp only [h4] at hi
        simp [BUNDLE_TAG] at hi
      · simp only [h5] at hi
        simp [BUNDLE_TAG] at hi
      · simp only [h6] at hi
        simp [BUNDLE_TAG] at hi
    · rcases Nat.lt_or_ge a.length 8 with hC | hC
      · have h7 : a.length = 7 := by omega
        apply hne
        apply List.ext_getElem (by rw [h7]; rfl)
        intro n hn1 hn2
        have hg := hcon.getElem
          (show n < BUNDLE_TAG.length by simp [BUNDLE_TAG]; omega)
        rw [List.getElem_append_left (by omega)] at hg
        have hn8 : n < BUNDLE_TAG.length := by simp [BUNDLE_TAG]; omega
        have hs : BUNDLE_TAG[n] = (strBytes "#bundle")[n] :=
          List.getElem_append_left hn2
        exact hg.symm.trans hs
      · have h7 := hcon.getElem (show 7 < BUNDLE_TAG.length by decide)
        rw [List.getElem_append_left (by omega)] at h7
        simp [BUNDLE_TAG] at h7
        exact h0 (by rw [h7]; exact List.getElem_mem _)

end OSC

namespace OSC

theorem bundleDecodeLoop_encode :
    ∀ (ps : List Packet) (b : List Nat),
      bundleEncodeItems ps = .ok b → PacketsOK ps = true →
      (∀ p ∈ ps, ∀ pb, packetEncode p = .ok pb →
        packetDecode pb = some (.ok p)) →
      bundleDecodeLoop b = some (.ok ps) := by
  intro ps
  induction ps with
  | nil =>
    intro b h _ _
    cases h
    rw [bundleDecodeLoop]
    rfl
  | cons p rest ih =>
    intro b h hOK hIH
    rw [bundleEncodeItems] at h
    cases he : packetEncode p with
    | error e => rw [he] at h; cases h
    | ok pb =>
      rw [he] at h
      cases hr : bundleEncodeItems rest with
      | error e => rw [hr] at h; cases h
      | ok rb =>
        rw [hr] at h
        cases h
        simp only [PacketsOK, Bool.and_eq_true] at hOK
        obtain ⟨⟨hpOK, hlen⟩, hrestOK⟩ := hOK
        rw [he] at hlen
        simp only [Except.toOption, Option.getD, decide_eq_true_eq] at hlen
        have hmod : pb.length % 2 ^ 32 = pb.length :=
          Nat.mod_eq_of_lt (by omega)
        have hpbA := packetEncode_mod4 p pb he
        have hrbA := bundleEncodeItems_mod4 rest rb hr
        have hnbv : next_block (be4 pb.length ++ (pb ++ rb))
            = some (.ok (pb, rb)) :=
          next_block_exact pb rb hlen hpbA hrbA
        have hpd : packetDecode pb = some (.ok p) := hIH p (by simp) pb he
        have hloop : bundleDecodeLoop rb = some (.ok rest) :=
          ih rb hr hrestOK (fun q hq qb hq2 => hIH q (by simp [hq]) qb hq2)
        rw [hmod, List.append_assoc]
        rw [bundleDecodeLoop]
        rw [if_neg (by simp [be4])]
        split
        · next heq => rw [hnbv] at heq; simp at heq
        · next e heq => rw [hnbv] at heq; simp at heq
        · next blk rst heq =>
          rw [hnbv] at heq
          simp only [Option.some.injEq, Except.ok.injEq, Prod.mk.injEq] at heq
          obtain ⟨hb, hr2⟩ := heq
          subst hb
          subst hr2
          rw [hpd, hloop]

end OSC

namespace OSC

theorem bundleDecode_encode (t : TimeTag) (msgs : List Packet)
    (buf : List Nat)
    (henc : packetEncode (.bundle t msgs) = .ok buf)
    (hOK : PacketOK (.bundle t msgs) = true)
    (hIH : ∀ p ∈ msgs, ∀ pb, packetEncode p = .ok pb →
      packetDecode pb = some (.ok p)) :
    bundleDecode buf = some (.ok (t, msgs)) := by
  cases hi : bundleEncodeItems msgs with
  | error e => rw [packetEncode, hi] at henc; cases henc
  | ok items =>
    rw [packetEncode, hi] at henc
    cases henc
    simp only [PacketOK, Bool.and_eq_true, decide_eq_true_eq] at hOK
    obtain ⟨⟨hs, hf⟩, hmsOK⟩ := hOK
    have hitA := bundleEncodeItems_mod4 msgs items hi
    have hshape : BUNDLE_TAG ++ be4 t.seconds ++ be4 t.fractional ++ items
        = BUNDLE_TAG ++ ((be4 t.seconds ++ be4 t.fractional) ++ items) := by
      simp [List.append_assoc]
    rw [hshape]
    have hns : next_string
        (BUNDLE_TAG ++ ((be4 t.seconds ++ be4 t.fractional) ++ items))
        = .ok (BUNDLE_TAG, (be4 t.seconds ++ be4 t.fractional) ++ items) :=
      next_string_bundle_tag _ (by simp [be4]; omega)
    have hnb : next_bytes ((be4 t.seconds ++ be4 t.fractional) ++ items) 8
        = .ok (be4 t.seconds ++ be4 t.fractional, items) :=
      next_bytes_exact _ _ 8 (by simp [be4]) (by decide) (by decide) hitA
    have hloop : bundleDecodeLoop items = some (.ok msgs) :=
      bundleDecodeLoop_encode msgs items hi hmsOK hIH
    have hsec : beNat4 (be4 t.seconds ++ be4 t.fractional) = t.seconds :=
      beNat4_be4 t.seconds _ hs
    have hfrac : beNat4 ((be4 t.seconds ++ be4 t.fractional).drop 4)
        = t.fractional := by
      rw [be4_append_drop]
      have := beNat4_be4 t.fractional [] hf
      simpa using this
    rw [bundleDecode]
    rw [if_neg (by simp [BUNDLE_TAG, be4]; omega)]
    split
    · next s rest heq =>
      rw [hns] at heq
      simp only [Except.ok.injEq, Prod.mk.injEq] at heq
      obtain ⟨hseq, hreq⟩ := heq
      subst hseq
      subst hreq
      rw [if_pos rfl]
      split
      · next tb rest2 heq2 =>
        rw [hnb] at heq2
        simp only [Except.ok.injEq, Prod.mk.injEq] at heq2
        obtain ⟨htb, hr2⟩ := heq2
        subst htb
        subst hr2
        rw [hloop]
        simp [Option.map, Except.map, hsec, hfrac]
      · next e heq2 => rw [hnb] at heq2; cases heq2
    · next e heq => rw [hns] at heq; cases heq

end OSC

namespace OSC

theorem message_encode_shape (m : Message) (b : List Nat)
    (h : m.encode = .ok b) :
    ∃ r, b = paddedBytes m.address ++ r := by
  unfold Message.encode at h
  split at h
  · cases h
  · cases h
    exact ⟨_, by rw [List.append_assoc]⟩

theorem bundleEncodeItems_ok :
    ∀ (msgs : List Packet),
      (∀ q ∈ msgs, ∃ b, packetEncode q = .ok b) →
      ∃ items, bundleEncodeItems msgs = .ok items := by
  intro msgs
  induction msgs with
  | nil => intro _; exact ⟨[], rfl⟩
  | cons p rest ih =>
    intro h
    obtain ⟨pb, hpb⟩ := h p (by simp)
    obtain ⟨rb, hrb⟩ := ih (fun q hq => h q (by simp [hq]))
    refine ⟨be4 (pb.length % 2 ^ 32) ++ pb ++ rb, ?_⟩
    rw [bundleEncodeItems, hpb, hrb]

theorem packet_roundtrip_aux :
    ∀ (n : Nat) (p : Packet), sizeOf p ≤ n → PacketOK p = true →
      ∃ buf, packetEncode p = .ok buf ∧ packetDecode buf = some (.ok p) := by
  intro n
  induction n with
  | zero =>
    intro p hsz
    cases p <;> simp at hsz
  | succ n ih =>
    intro p hsz hOK
    cases p with
    | message m =>
      simp only [PacketOK, Bool.and_eq_true] at hOK
      obtain ⟨hM, hnb⟩ := hOK
      obtain ⟨buf, henc, hdec⟩ := message_roundtrip m hM
      refine ⟨buf, by rw [packetEncode]; exact henc, ?_⟩
      obtain ⟨r, hbshape⟩ := message_encode_shape m buf henc
      have h0 : ¬ 0 ∈ m.address := by
        simp only [MsgOK, Bool.and_eq_true] at hM
        have := hM.1.1.2
        simpa using this
      have hne : m.address ≠ strBytes "#bundle" := by
        simpa using hnb
      have hpf : BUNDLE_TAG.isPrefixOf buf = false := by
        rw [hbshape]
        exact message_not_bundle_prefix m.address r h0 hne
      rw [packetDecode]
      rw [if_neg (by rw [message_encode_mod4 m buf henc]; omega)]
      rw [if_neg (by rw [hpf]; simp)]
      rw [hdec]
      rfl
    | bundle t msgs =>
      have hsub : ∀ q ∈ msgs, ∃ buf,
          packetEncode q = .ok buf ∧ packetDecode buf = some (.ok q) := by
        intro q hq
        have hqsz : sizeOf q < sizeOf msgs := List.sizeOf_lt_of_mem hq
        have hbsz : sizeOf msgs < sizeOf (Packet.bundle t msgs) := by
          simp
        have hqOK : PacketOK q = true := by
          simp only [PacketOK, Bool.and_eq_true] at hOK
          have hms := hOK.2
          clear hOK hbsz hqsz ih hsz
          induction msgs with
          | nil => cases hq
          | cons a rest ihm =>
            simp only [PacketsOK, Bool.and_eq_true] at hms
            rcases List.mem_cons.mp hq with hh | hh
            · subst hh; exact hms.1.1
            · exact ihm hh hms.2
        exact ih q (by omega) hqOK
      have hIH : ∀ q ∈ msgs, ∀ qb, packetEncode q = .ok qb →
          packetDecode qb = some (.ok q) := by
        intro q hq qb hqb
        obtain ⟨buf, henc, hdec⟩ := hsub q hq
        rw [henc] at hqb
        cases hqb
        exact hdec
      obtain ⟨items, hitems⟩ :=
        bundleEncodeItems_ok msgs
          (fun q hq => ⟨(hsub q hq).choose, (hsub q hq).choose_spec.1⟩)
      have henc : packetEncode (.bundle t msgs)
          = .ok (BUNDLE_TAG ++ be4 t.seconds ++ be4 t.fractional ++ items) := by
        rw [packetEncode, hitems]
      refine ⟨_, henc, ?_⟩
      have hbd := bundleDecode_encode t msgs _ henc hOK hIH
      rw [packetDecode]
      rw [if_neg ?halign]
      case halign =>
        have := packetEncode_mod4 _ _ henc
        omega
      rw [if_pos ?hpre]
      case hpre =>
        rw [List.isPrefixOf_iff_prefix]
        rw [List.append_assoc, List.append_assoc]
        exact List.prefix_append _ _
      rw [hbd]
      rfl

end OSC

namespace X32

open OSC

theorem resolve_main_str (d : List Nat) :
    FaderIndexParse.resolve (.str (strBytes "main") d)
      = .ok (.main (if d = strBytes "m" then 2 else 1)) := by
  by_cases hdm : d = strBytes "m"
  · subst hdm; rfl
  · unfold FaderIndexParse.resolve
    simp only []
    rw [if_neg hdm]
    rfl

theorem resolve_ok_bounds (v : FaderIndexParse) (fi : FaderIndex)
    (h : FaderIndexParse.resolve v = .ok fi) :
    match fi with
    | .aux i => 1 ≤ i ∧ i ≤ 8
    | .matrix i => 1 ≤ i ∧ i ≤ 6
    | .main i => 1 ≤ i ∧ i ≤ 2
    | .channel i => 1 ≤ i ∧ i ≤ 32
    | .dca i => 1 ≤ i ∧ i ≤ 8
    | .bus i => 1 ≤ i ∧ i ≤ 16
    | .unknown => False := by
  cases v with
  | int s d =>
    unfold FaderIndexParse.resolve at h
    simp only [] at h
    by_cases hd : d < 0
    · rw [if_pos hd] at h; cases h
    · rw [if_neg hd] at h
      simp only [] at h
      repeat' split at h
      all_goals cases h
      all_goals simp only []
      all_goals omega
  | str s d =>
    by_cases hs : s = strBytes "main"
    · subst hs
      rw [resolve_main_str] at h
      cases h
      by_cases hdm : d = strBytes "m" <;> simp [hdm]
    · unfold FaderIndexParse.resolve at h
      simp only [] at h
      rw [if_neg hs] at h
      cases hp : parseUsize d with
      | none => rw [hp] at h; cases h
      | some i =>
        rw [hp] at h
        simp only [] at h
        repeat' split at h
        all_goals cases h
        all_goals simp only []
        all_goals omega

theorem resolve_int_no_clamp (s : List Nat) (d : Int) (fi : FaderIndex)
    (h : FaderIndexParse.resolve (.int s d) = .ok fi) :
    (fi.get_index : Int) = d := by
  unfold FaderIndexParse.resolve at h
  simp only [] at h
  by_cases hd : d < 0
  · rw [if_pos hd] at h; cases h
  · rw [if_neg hd] at h
    simp only [] at h
    repeat' split at h
    all_goals cases h
    all_goals simp only [FaderIndex.get_index]
    all_goals omega

theorem resolve_str_no_clamp (s d : List Nat) (fi : FaderIndex)
    (hs : s ≠ strBytes "main")
    (h : FaderIndexParse.resolve (.str s d) = .ok fi) :
    parseUsize d = some fi.get_index := by
  unfold FaderIndexParse.resolve at h
  simp only [] at h
  rw [if_neg hs] at h
  cases hp : parseUsize d with
  | none => rw [hp] at h; cases h
  | some i =>
    rw [hp] at h
    simp only [] at h
    repeat' split at h
    all_goals cases h
    all_goals simp only [FaderIndex.get_index]

end X32

namespace X32

open OSC

theorem first_default_float_default (a : List Nat) (args : List OType)
    (f : Bool) (d : Nat) (h : ∀ v, args.head? ≠ some (OType.float v)) :
    first_default_float ⟨a, args, f⟩ d = d := by
  unfold first_default_float
  simp only []

theorem first_default_int_default (a : List Nat) (args : List OType)
    (f : Bool) (d : Int) (h : ∀ v, args.head? ≠ some (OType.integer v)) :
    first_default_int ⟨a, args, f⟩ d = d := by
  unfold first_default_int
  simp only []

theorem first_default_str_default (a : List Nat) (args : List OType)
    (f : Bool) (d : List Nat) (h : ∀ v, args.head? ≠ some (OType.str v)) :
    first_default_str ⟨a, args, f⟩ d = d := by
  unfold first_default_str
  simp only []

theorem std_osc_level_default (args : List OType) (f : Bool)
    (h : ∀ v, args.head? ≠ some (OType.float v)) :
    try_from_standard_osc ⟨strBytes "/ch/05/mix/fader", args, f⟩
      = .ok (.fader { FaderUpdate.default with
          source := .channel 5, level := some (.bits 0) }) := by
  unfold try_from_standard_osc
  simp only []
  rw [if_pos (by decide)]
  rw [first_default_float_default _ _ _ _ h]
  rfl

theorem std_osc_mute_default (args : List OType) (f : Bool)
    (h : ∀ v, args.head? ≠ some (OType.integer v)) :
    try_from_standard_osc ⟨strBytes "/ch/05/mix/on", args, f⟩
      = .ok (.fader { FaderUpdate.default with
          source := .channel 5, is_on := some false }) := by
  unfold try_from_standard_osc
  simp only []
  rw [if_neg (by decide), if_pos (by decide)]
  rw [first_default_int_default _ _ _ _ h]
  rfl

theorem std_osc_name_default (args : List OType) (f : Bool)
    (h : ∀ v, args.head? ≠ some (OType.str v)) :
    try_from_standard_osc ⟨strBytes "/ch/05/config/name", args, f⟩
      = .ok (.fader { FaderUpdate.default with
          source := .channel 5, label := some [] }) := by
  unfold try_from_standard_osc
  simp only []
  rw [if_neg (by decide), if_neg (by decide), if_pos (by decide)]
  rw [first_default_str_default _ _ _ _ h]
  rfl

theorem std_osc_color_default (args : List OType) (f : Bool)
    (h : ∀ v, args.head? ≠ some (OType.integer v)) :
    try_from_standard_osc ⟨strBytes "/ch/05/config/color", args, f⟩
      = .ok (.fader { FaderUpdate.default with
          source := .channel 5, color := some (FaderColor.parse_int 1) }) := by
  unfold try_from_standard_osc
  simp only []
  rw [if_neg (by decide), if_neg (by decide), if_neg (by decide), if_pos (by decide)]
  rw [first_default_int_default _ _ _ _ h]
  rfl

theorem std_osc_current_cue_default (args : List OType) (f : Bool)
    (h : ∀ v, args.head? ≠ some (OType.integer v)) :
    try_from_standard_osc ⟨strBytes "/-show/prepos/current", args, f⟩
      = .ok (.currentCue (-1)) := by
  unfold try_from_standard_osc
  simp only []
  rw [if_neg (by decide), if_neg (by decide), if_neg (by decide), if_neg (by decide),
    if_pos (by decide)]
  rw [first_default_int_default _ _ _ _ h]
  rfl

theorem std_osc_show_mode_default (args : List OType) (f : Bool)
    (h : ∀ v, args.head? ≠ some (OType.integer v)) :
    try_from_standard_osc ⟨strBytes "/-prefs/show_control", args, f⟩
      = .ok (.showMode (ShowMode.from_int (-1))) := by
  unfold try_from_standard_osc
  simp only []
  rw [if_neg (by decide), if_neg (by decide), if_neg (by decide), if_neg (by decide),
    if_neg (by decide), if_pos (by decide)]
  rw [first_default_int_default _ _ _ _ h]

end X32

-- MARK: the claims

namespace OSC

theorem PacketsOK_mem {ps : List Packet} {p : Packet}
    (h : PacketsOK ps = true) (hp : p ∈ ps) : PacketOK p = true := by
  induction ps with
  | nil => cases hp
  | cons a rest ih =>
    simp only [PacketsOK, Bool.and_eq_true] at h
    rcases List.mem_cons.mp hp with hh | hh
    · subst hh; exact h.1.1
    · exact ih h.2 hh

/-- C3: encoding a valid Message, Bundle or Packet and decoding the result
reproduces the original, including argument order and nested bundle
structure — PROVIDED `force_empty_args` is only set on messages whose
argument list is empty (see the counterexample for the flag loss), the
address has no NUL byte and is not exactly `#bundle`, every argument
carries a type character with its payload in wire range, and bundle
members encode below the `i32` length prefix bound. -/
theorem c3_encode_decode_roundtrip :
    (∀ m : Message, MsgOK m = true →
      ∃ buf, m.encode = .ok buf ∧ Message.decode buf = .ok m)
    ∧ (∀ (t : TimeTag) (ps : List Packet), PacketOK (.bundle t ps) = true →
      ∃ buf, packetEncode (.bundle t ps) = .ok buf
        ∧ bundleDecode buf = some (.ok (t, ps)))
    ∧ (∀ p : Packet, PacketOK p = true →
      ∃ buf, packetEncode p = .ok buf ∧ packetDecode buf = some (.ok p)) := by
  have third : ∀ q, PacketOK q = true →
      ∃ buf, packetEncode q = .ok buf ∧ packetDecode buf = some (.ok q) :=
    fun q hq => packet_roundtrip_aux (sizeOf q) q le_rfl hq
  refine ⟨message_roundtrip, ?_, third⟩
  intro t ps hOK
  obtain ⟨buf, henc, _⟩ := third _ hOK
  refine ⟨buf, henc, ?_⟩
  apply bundleDecode_encode t ps buf henc hOK
  intro q hq qb hqb
  have hms : PacketsOK ps = true := by
    simp only [PacketOK, Bool.and_eq_true] at hOK
    exact hOK.2
  obtain ⟨b2, he2, hd2⟩ := third q (PacketsOK_mem hms hq)
  rw [he2] at hqb
  cases hqb
  exact hd2

/-- C3 counterexample: the message `/a` with one integer argument and
`force_empty_args = true` encodes with its real type list, and decoding
that buffer returns the message with `force_empty_args = false` — the flag
is not reproduced, so the round trip as claimed (any valid value, flag
included) fails. -/
theorem c3_force_empty_args_lost :
    Message.encode ⟨strBytes "/a", [.integer 1], true⟩
      = .ok [47, 97, 0, 0, 44, 105, 0, 0, 0, 0, 0, 1]
    ∧ Message.decode [47, 97, 0, 0, 44, 105, 0, 0, 0, 0, 0, 1]
      = .ok ⟨strBytes "/a", [.integer 1], false⟩
    ∧ (⟨strBytes "/a", [.integer 1], true⟩ : Message)
      ≠ ⟨strBytes "/a", [.integer 1], false⟩ :=
  ⟨rfl, rfl, by decide⟩

/-- C3 witness: the round trip at a concrete message and a concrete
one-message bundle. -/
theorem c3_roundtrip_witness :
    (MsgOK ⟨strBytes "/ab", [.integer 5, .str (strBytes "hi")], false⟩ = true
      ∧ ∃ buf, Message.encode ⟨strBytes "/ab", [.integer 5, .str (strBytes "hi")], false⟩
          = .ok buf
        ∧ Message.decode buf = .ok ⟨strBytes "/ab", [.integer 5, .str (strBytes "hi")], false⟩)
    ∧ ∃ buf, packetEncode (.bundle ⟨1, 2⟩ [.message ⟨strBytes "/ab", [], false⟩])
        = .ok buf
      ∧ packetDecode buf
        = some (.ok (.bundle ⟨1, 2⟩ [.message ⟨strBytes "/ab", [], false⟩])) :=
  ⟨⟨by decide, c3_encode_decode_roundtrip.1 _ (by decide)⟩,
   c3_encode_decode_roundtrip.2.2 _ (by decide)⟩

/-- C4: every consuming read on a misaligned buffer fails with the
alignment error before any other error kind — TRUE for `get_string` and
for `get_bytes` with a non-zero requested length, and for the block reads
only once the buffer holds at least the 4 size bytes: `get_bytes` with
requested length 0 succeeds without any check, and both block reads test
`len < 4` (underrun) before alignment (see the counterexample). -/
theorem c4_misaligned_alignment_error (data : List Nat)
    (halign : data.length % 4 ≠ 0) :
    get_string data = .error .notFourByte
    ∧ (∀ n, n ≠ 0 → get_bytes data n = .error .notFourByte)
    ∧ (4 ≤ data.length → get_next_byte_block data = .error .notFourByte)
    ∧ (4 ≤ data.length → get_next_block data = some (.error .notFourByte)) := by
  have hne : ¬ data.isEmpty := by
    cases data with
    | nil => simp at halign
    | cons a l => simp
  refine ⟨?_, ?_, ?_, ?_⟩
  · unfold get_string
    rw [if_neg (by simpa using hne), if_pos (by simpa using halign)]
  · intro n hn
    unfold get_bytes
    rw [if_neg hn, if_neg (by simpa using hne), if_pos (by exact Or.inl halign)]
  · intro h4
    unfold get_next_byte_block
    rw [if_neg (by omega), if_pos (by simpa using halign)]
  · intro h4
    unfold get_next_block
    rw [if_neg (by omega), if_pos (by simpa using halign)]

/-- C4 counterexample: on the misaligned one-byte buffer, `get_bytes`
with requested length 0 succeeds, and both block reads report an underrun,
so the alignment error is not produced before every other check. -/
theorem c4_reads_escape_alignment_check :
    get_bytes [1] 0 = .ok ([], [1])
    ∧ get_next_byte_block [1] = .error .bufferUnderrun
    ∧ get_next_block [1] = some (.error .bufferUnderrun)
    ∧ ([1] : List Nat).length % 4 ≠ 0 :=
  ⟨rfl, rfl, rfl, by decide⟩

/-- C4 witness: the alignment error on the concrete misaligned five-byte
buffer. -/
theorem c4_alignment_witness :
    get_string [1, 2, 3, 4, 5] = .error .notFourByte
    ∧ get_bytes [1, 2, 3, 4, 5] 8 = .error .notFourByte
    ∧ get_next_byte_block [1, 2, 3, 4, 5] = .error .notFourByte
    ∧ get_next_block [1, 2, 3, 4, 5] = some (.error .notFourByte) := by
  have := c4_misaligned_alignment_error [1, 2, 3, 4, 5] (by decide)
  exact ⟨this.1, this.2.1 8 (by decide), this.2.2.1 (by decide),
    this.2.2.2 (by decide)⟩

end OSC

namespace X32

open OSC

set_option maxRecDepth 8000 in
/-- C1: FALSE as stated — `X32Console::update` guards the cue, scene and
snippet writes with `index <= 500` although the arrays hold 500, 100 and
100 slots, so a snippet or scene index of 100 (up to 500) and a cue index
of exactly 500 reach the array out of bounds (`none` = panic), while
indices above 500 are silently dropped as specified; fader updates with an
unknown or out-of-range source are total no-ops, and an in-range write
replaces the slot. -/
theorem c1_update_out_of_range_panics :
    X32Console.update X32Console.new (.snippet ⟨100, strBytes "S"⟩) = none
    ∧ X32Console.update X32Console.new (.scene ⟨100, strBytes "S"⟩) = none
    ∧ X32Console.update X32Console.new
        (.cue ⟨500, strBytes "101", strBytes "N", none, none⟩) = none
    ∧ X32Console.update X32Console.new (.snippet ⟨501, strBytes "S"⟩)
        = some (X32Console.new, .noOperation)
    ∧ X32Console.update X32Console.new
        (.cue ⟨501, strBytes "101", strBytes "N", none, none⟩)
        = some (X32Console.new, .noOperation)
    ∧ X32Console.update X32Console.new
        (.fader { FaderUpdate.default with source := .channel 99 })
        = some (X32Console.new, .noOperation)
    ∧ X32Console.update X32Console.new (.fader FaderUpdate.default)
        = some (X32Console.new, .noOperation)
    ∧ X32Console.update X32Console.new (.snippet ⟨0, strBytes "S"⟩)
        = some ({ X32Console.new with
            snippets := (List.replicate 100 none
              : List (Option (List Nat))).set 0 (some (strBytes "S")) },
            .noOperation) :=
  ⟨rfl, rfl, rfl, rfl, rfl, rfl, rfl, rfl⟩

/-- C2: FALSE as stated — recognized node-form patterns with fewer
whitespace-separated payload tokens than the pattern consumes reach an
unguarded `args[i]` (or underflow `cue_number.len() - 2`), a panic
(`none`), instead of returning an explicit error; well-formed input and
unrecognized addresses do produce explicit values. -/
theorem c2_node_interpreter_panics :
    try_from_node (strBytes "-prefs/show_control") = none
    ∧ try_from_node (strBytes "-show/prepos/current") = none
    ∧ try_from_node (strBytes "ch/01/config \x22Name\x22") = none
    ∧ try_from_node (strBytes "-show/showfile/cue/000 1") = none
    ∧ try_from_node (strBytes "-show/showfile/cue/000 1 name 0 -1 -1") = none
    ∧ ConsoleMessage.try_from
        ⟨strBytes "node", [.str (strBytes "-prefs/show_control")], false⟩ = none
    ∧ ConsoleMessage.try_from ⟨strBytes "/ch/01/mix/fader", [.float 5, .integer 3], false⟩
        = some (.ok (.fader { FaderUpdate.default with
            source := .channel 1, level := some (.bits 5) }))
    ∧ ConsoleMessage.try_from ⟨strBytes "/xyz/abc", [], false⟩
        = some (.error (.x32 .unimplementedPacket)) :=
  ⟨rfl, rfl, rfl, rfl, rfl, rfl, rfl, rfl⟩

/-- C5: FALSE as stated — `full_update` opens with show data, show mode,
current cue and both mains in the claimed order and covers matrix, bus,
DCA and channel fully, but the aux loop runs `1..=6`, so the auxin 07 and
08 request pairs are missing and the aggregate has 143 buffers, not the
147 the repository's own test asserts. -/
theorem c5_full_update_skips_aux_7_8 :
    full_update.length = 143
    ∧ full_update.take 7 = [
        (Message.encode ⟨strBytes "/showdata", [], false⟩).toOption.getD [],
        new_node_buffer (strBytes "-prefs/show_control"),
        new_node_buffer (strBytes "-show/prepos/current"),
        new_node_buffer (strBytes "main/st/mix"),
        new_node_buffer (strBytes "main/st/config"),
        new_node_buffer (strBytes "main/m/mix"),
        new_node_buffer (strBytes "main/m/config")]
    ∧ new_node_buffer (strBytes "auxin/06/mix") ∈ full_update
    ∧ ¬ new_node_buffer (strBytes "auxin/07/mix") ∈ full_update
    ∧ ¬ new_node_buffer (strBytes "auxin/08/mix") ∈ full_update
    ∧ ¬ new_node_buffer (strBytes "auxin/07/config") ∈ full_update
    ∧ ¬ new_node_buffer (strBytes "auxin/08/config") ∈ full_update
    ∧ new_node_buffer (strBytes "mtx/06/mix") ∈ full_update
    ∧ new_node_buffer (strBytes "bus/16/mix") ∈ full_update
    ∧ new_node_buffer (strBytes "dca/8/") ∈ full_update
    ∧ new_node_buffer (strBytes "ch/32/mix") ∈ full_update := by
  refine ⟨rfl, rfl, ?_, ?_, ?_, ?_, ?_, ?_, ?_, ?_, ?_⟩ <;> decide

end X32

namespace X32

open OSC

/-- C6: resolution never returns an out-of-range `FaderIndex` (so
bounds are enforced on every success), and integer positions as well as
string positions of the five non-main banks are never clamped — but the
claim is FALSE for the main bank resolved from a string position, which
never fails: `m` maps to Main 2 and every other string, an out-of-range or
unparsable position included, silently maps to Main 1 (see the
counterexample). -/
theorem c6_resolve_bounds_and_main_anomaly :
    ((∀ (v : FaderIndexParse) (i : Nat),
        FaderIndexParse.resolve v = .ok (.aux i) → 1 ≤ i ∧ i ≤ 8)
      ∧ (∀ (v : FaderIndexParse) (i : Nat),
        FaderIndexParse.resolve v = .ok (.matrix i) → 1 ≤ i ∧ i ≤ 6)
      ∧ (∀ (v : FaderIndexParse) (i : Nat),
        FaderIndexParse.resolve v = .ok (.main i) → 1 ≤ i ∧ i ≤ 2)
      ∧ (∀ (v : FaderIndexParse) (i : Nat),
        FaderIndexParse.resolve v = .ok (.channel i) → 1 ≤ i ∧ i ≤ 32)
      ∧ (∀ (v : FaderIndexParse) (i : Nat),
        FaderIndexParse.resolve v = .ok (.dca i) → 1 ≤ i ∧ i ≤ 8)
      ∧ (∀ (v : FaderIndexParse) (i : Nat),
        FaderIndexParse.resolve v = .ok (.bus i) → 1 ≤ i ∧ i ≤ 16)
      ∧ (∀ (v : FaderIndexParse),
        FaderIndexParse.resolve v ≠ .ok .unknown))
    ∧ (∀ (s : List Nat) (d : Int) (fi : FaderIndex),
      FaderIndexParse.resolve (.int s d) = .ok fi → (fi.get_index : Int) = d)
    ∧ (∀ (s d : List Nat) (fi : FaderIndex), s ≠ strBytes "main" →
      FaderIndexParse.resolve (.str s d) = .ok fi →
        parseUsize d = some fi.get_index)
    ∧ (∀ (d : List Nat), FaderIndexParse.resolve (.str (strBytes "main") d)
        = .ok (.main (if d = strBytes "m" then 2 else 1))) :=
  ⟨⟨fun v i h => resolve_ok_bounds v (.aux i) h,
    fun v i h => resolve_ok_bounds v (.matrix i) h,
    fun v i h => resolve_ok_bounds v (.main i) h,
    fun v i h => resolve_ok_bounds v (.channel i) h,
    fun v i h => resolve_ok_bounds v (.dca i) h,
    fun v i h => resolve_ok_bounds v (.bus i) h,
    fun v h => resolve_ok_bounds v .unknown h⟩,
   resolve_int_no_clamp, resolve_str_no_clamp,
   resolve_main_str⟩

/-- C6 counterexample: the main bank with the out-of-range string position
`7` (also `0` and a non-numeric string) resolves to Main 1 instead of the
invalid-fader error — while the integer path rejects the same position. -/
theorem c6_main_string_position_ignored :
    FaderIndexParse.resolve (.str (strBytes "main") (strBytes "7"))
      = .ok (.main 1)
    ∧ FaderIndexParse.resolve (.str (strBytes "main") (strBytes "0"))
      = .ok (.main 1)
    ∧ FaderIndexParse.resolve (.str (strBytes "main") (strBytes "junk"))
      = .ok (.main 1)
    ∧ FaderIndexParse.resolve (.int (strBytes "main") 7)
      = .error (.x32 .invalidFader) :=
  ⟨rfl, rfl, rfl, rfl⟩

/-- C6 witness: concrete resolutions — bus 17 is rejected, bus 5 keeps
its parsed position, channel 7 keeps its integer position. -/
theorem c6_resolve_witness :
    FaderIndexParse.resolve (.str (strBytes "bus") (strBytes "17"))
      = .error (.x32 .invalidFader)
    ∧ parseUsize (strBytes "5") = some (FaderIndex.bus 5).get_index
    ∧ ((FaderIndex.channel 7).get_index : Int) = 7 :=
  ⟨by rfl,
   c6_resolve_bounds_and_main_anomaly.2.2.1 (strBytes "bus") (strBytes "5")
     (.bus 5) (by decide) (by rfl),
   c6_resolve_bounds_and_main_anomaly.2.1 (strBytes "ch") 7 (.channel 7)
     (by rfl)⟩

/-- C7: applying a `FaderUpdate` overwrites exactly the present (`some`)
fields, keeps every absent (`none`) field and the source, and sequential
single-field updates accumulate. -/
theorem c7_fader_partial_update :
    ∀ (f : Fader) (u : FaderUpdate),
      ((f.update u).source = f.source
        ∧ (u.label = none → (f.update u).label = f.label)
        ∧ (u.level = none → (f.update u).level = f.level)
        ∧ (u.is_on = none → (f.update u).is_on = f.is_on)
        ∧ (u.color = none → (f.update u).color = f.color)
        ∧ (∀ x, u.label = some x → (f.update u).label = x)
        ∧ (∀ x, u.level = some x → (f.update u).level = x)
        ∧ (∀ x, u.is_on = some x → (f.update u).is_on = x)
        ∧ (∀ x, u.color = some x → (f.update u).color = x))
      ∧ (∀ (l : List Nat) (lv : LevelVal),
          (f.update { FaderUpdate.default with label := some l }).update
            { FaderUpdate.default with level := some lv }
          = { f with label := l, level := lv }) := by
  intro f u
  refine ⟨⟨rfl, ?_, ?_, ?_, ?_, ?_, ?_, ?_, ?_⟩, ?_⟩
  all_goals intro x
  all_goals try intro hx
  all_goals simp [Fader.update, FaderUpdate.default]
  all_goals simp_all

/-- C7 witness: a label-only update on a fresh fader sets the label and
keeps the level, and a label-only then level-only sequence accumulates
both fields. -/
theorem c7_fader_update_witness :
    ((Fader.new (.channel 1)).update
        ⟨.unknown, some (strBytes "A"), none, none, none⟩).label = strBytes "A"
    ∧ ((Fader.new (.channel 1)).update
        ⟨.unknown, some (strBytes "A"), none, none, none⟩).level = .bits 0
    ∧ ((Fader.new (.channel 1)).update
          { FaderUpdate.default with label := some (strBytes "A") }).update
        { FaderUpdate.default with level := some (.bits 9) }
      = { Fader.new (.channel 1) with label := strBytes "A", level := .bits 9 } :=
  ⟨(c7_fader_partial_update (Fader.new (.channel 1))
      ⟨.unknown, some (strBytes "A"), none, none, none⟩).1.2.2.2.2.2.1 _ rfl,
   (c7_fader_partial_update (Fader.new (.channel 1))
      ⟨.unknown, some (strBytes "A"), none, none, none⟩).1.2.2.1 rfl,
   (c7_fader_partial_update (Fader.new (.channel 1)) FaderUpdate.default).2
      (strBytes "A") (.bits 9)⟩

/-- C9: `X32Console::reset` empties the three cue/scene/snippet arrays,
resets every fader of every bank to empty label, level 0, off, white
(keeping its source), and leaves `show_mode` and `current_cue` untouched;
a current-cue pointer set before reset therefore renders the no-selection
placeholder of its mode afterwards. -/
theorem c9_console_reset :
    ∀ (c : X32Console),
      (c.reset).cues = List.replicate 500 none
      ∧ (c.reset).snippets = List.replicate 100 none
      ∧ (c.reset).scenes = List.replicate 100 none
      ∧ (c.reset).show_mode = c.show_mode
      ∧ (c.reset).current_cue = c.current_cue
      ∧ (c.reset).faders.main = c.faders.main.map (fun f =>
          { f with label := [], level := .bits 0, is_on := false, color := .white })
      ∧ (c.reset).faders.matrix = c.faders.matrix.map (fun f =>
          { f with label := [], level := .bits 0, is_on := false, color := .white })
      ∧ (c.reset).faders.aux = c.faders.aux.map (fun f =>
          { f with label := [], level := .bits 0, is_on := false, color := .white })
      ∧ (c.reset).faders.dca = c.faders.dca.map (fun f =>
          { f with label := [], level := .bits 0, is_on := false, color := .white })
      ∧ (c.reset).faders.bus = c.faders.bus.map (fun f =>
          { f with label := [], level := .bits 0, is_on := false, color := .white })
      ∧ (c.reset).faders.channel = c.faders.channel.map (fun f =>
          { f with label := [], level := .bits 0, is_on := false, color := .white })
      ∧ (∀ d, c.show_mode = .cues → c.current_cue = some d → d < 500 →
          (c.reset).active_cue = some (strBytes "Cue: 0.0.0 :: -- [--] [--]"))
      ∧ (∀ d, c.show_mode = .scenes → c.current_cue = some d → d < 100 →
          (c.reset).active_cue = some (strBytes "Scene: --"))
      ∧ (∀ d, c.show_mode = .snippets → c.current_cue = some d → d < 100 →
          (c.reset).active_cue = some (strBytes "Snippet: --")) := by
  intro c
  refine ⟨rfl, rfl, rfl, rfl, rfl, rfl, rfl, rfl, rfl, rfl, rfl, ?_, ?_, ?_⟩
  · intro d hm hc hd
    simp only [X32Console.active_cue, X32Console.reset, X32Console.clear_cues]
    rw [hm]
    simp only [X32Console.cue_name]
    rw [hc]
    simp only [if_pos hd]
    rw [List.get?_eq_getElem?, List.getElem?_replicate, if_pos hd]
    rfl
  · intro d hm hc hd
    simp only [X32Console.active_cue, X32Console.reset, X32Console.clear_cues]
    rw [hm]
    simp only [X32Console.scene_name]
    rw [hc]
    simp only [if_pos hd]
    rw [List.get?_eq_getElem?, List.getElem?_replicate, if_pos hd]
    rfl
  · intro d hm hc hd
    simp only [X32Console.active_cue, X32Console.reset, X32Console.clear_cues]
    rw [hm]
    simp only [X32Console.snip_name]
    rw [hc]
    simp only [if_pos hd]
    rw [List.get?_eq_getElem?, List.getElem?_replicate, if_pos hd]
    rfl

/-- C9 witness: resetting a fresh console whose current cue is 3 keeps the
pointer and renders the cue placeholder for it. -/
theorem c9_reset_witness :
    (X32Console.reset { X32Console.new with current_cue := some 3 }).active_cue
      = some (strBytes "Cue: 0.0.0 :: -- [--] [--]")
    ∧ (X32Console.reset { X32Console.new with current_cue := some 3 }).current_cue
      = some 3 :=
  ⟨(c9_console_reset { X32Console.new with current_cue := some 3
      }).2.2.2.2.2.2.2.2.2.2.2.1 3 rfl rfl (by decide),
   (c9_console_reset { X32Console.new with current_cue := some 3 }).2.2.2.2.1⟩

/-- C10: for the recognized standard-OSC console patterns, a missing or
wrongly-typed first argument is not an error: the interpreter substitutes
the fixed per-pattern default and returns a normal result — level 0.0,
mute off, empty name, the color of integer 1, and current-cue position -1. -/
theorem c10_standard_osc_first_arg_defaults :
    (∀ (args : List OType) (f : Bool),
      (∀ v, args.head? ≠ some (OType.float v)) →
      try_from_standard_osc ⟨strBytes "/ch/05/mix/fader", args, f⟩
        = .ok (.fader { FaderUpdate.default with
            source := .channel 5, level := some (.bits 0) }))
    ∧ (∀ (args : List OType) (f : Bool),
      (∀ v, args.head? ≠ some (OType.integer v)) →
      try_from_standard_osc ⟨strBytes "/ch/05/mix/on", args, f⟩
        = .ok (.fader { FaderUpdate.default with
            source := .channel 5, is_on := some false }))
    ∧ (∀ (args : List OType) (f : Bool),
      (∀ v, args.head? ≠ some (OType.str v)) →
      try_from_standard_osc ⟨strBytes "/ch/05/config/name", args, f⟩
        = .ok (.fader { FaderUpdate.default with
            source := .channel 5, label := some [] }))
    ∧ (∀ (args : List OType) (f : Bool),
      (∀ v, args.head? ≠ some (OType.integer v)) →
      try_from_standard_osc ⟨strBytes "/ch/05/config/color", args, f⟩
        = .ok (.fader { FaderUpdate.default with
            source := .channel 5, color := some (FaderColor.parse_int 1) }))
    ∧ (∀ (args : List OType) (f : Bool),
      (∀ v, args.head? ≠ some (OType.integer v)) →
      try_from_standard_osc ⟨strBytes "/-show/prepos/current", args, f⟩
        = .ok (.currentCue (-1)))
    ∧ (∀ (args : List OType) (f : Bool),
      (∀ v, args.head? ≠ some (OType.integer v)) →
      try_from_standard_osc ⟨strBytes "/-prefs/show_control", args, f⟩
        = .ok (.showMode (ShowMode.from_int (-1)))) :=
  ⟨std_osc_level_default, std_osc_mute_default, std_osc_name_default,
   std_osc_color_default, std_osc_current_cue_default,
   std_osc_show_mode_default⟩

/-- C10 witness: the defaults at concrete inputs — no argument, and a
first argument of the wrong type. -/
theorem c10_defaults_witness :
    try_from_standard_osc ⟨strBytes "/ch/05/mix/fader", [], false⟩
      = .ok (.fader { FaderUpdate.default with
          source := .channel 5, level := some (.bits 0) })
    ∧ try_from_standard_osc ⟨strBytes "/ch/05/mix/fader", [.str (strBytes "x")], true⟩
      = .ok (.fader { FaderUpdate.default with
          source := .channel 5, level := some (.bits 0) })
    ∧ try_from_standard_osc ⟨strBytes "/-show/prepos/current", [], false⟩
      = .ok (.currentCue (-1)) :=
  ⟨c10_standard_osc_first_arg_defaults.1 [] false (by intro v h; cases h),
   c10_standard_osc_first_arg_defaults.1 [.str (strBytes "x")] true
     (by intro v h; cases h),
   c10_standard_osc_first_arg_defaults.2.2.2.2.1 [] false
     (by intro v h; cases h)⟩

end X32
